import Mathlib

/-!
Verification of the text-distillation core of `science_digest.py`.

Text is modelled as `List Char`.  Python regular-expression operations are
modelled by a small backtracking engine (`Re`, `reM`, `reSub`, `reSearch`)
whose semantics follow Python's `re` module: leftmost match, greedy/lazy
quantifiers with backtracking, character classes, word boundaries,
lookahead, capture groups and backreference replacement templates.
`\w`, `\s`, `\d`, `str.lower`, `str.islower` are modelled at ASCII
precision (plus the concrete non-ASCII code points the program manipulates);
all data handled by the claims is ASCII, apart from the mojibake tables of
`normalize_characters`, which are modelled exactly.

Recursive functions take an explicit fuel argument so that every definition
is structurally recursive and kernel-computable; top-level wrappers supply
fuel that is sufficient for the call (each step consumes input).
-/

namespace SciDigest

/-- Characters matched by Python's `\s` (whitespace): ASCII whitespace plus
the Unicode whitespace code points that can occur in this program's data
(in particular U+00A0, which `normalize_characters` manipulates). -/
def pySpace (c : Char) : Bool :=
  c = ' ' || c = '\t' || c = '\n' || c = '\r' || c = '\u000b' || c = '\u000c' ||
  c = '\u001c' || c = '\u001d' || c = '\u001e' || c = '\u001f' || c = '\u0085' ||
  c = '\u00a0' || c = '\u1680' || ('\u2000' ≤ c && c ≤ '\u200a') ||
  c = '\u2028' || c = '\u2029' || c = '\u202f' || c = '\u205f' || c = '\u3000'

/-- Characters matched by Python's `\w`, at ASCII precision
(alphanumeric or underscore). -/
def pyWord (c : Char) : Bool :=
  c.isAlpha || c.isDigit || c = '_'

/-- `String.data` shorthand used to write character-list constants. -/
def strL (s : String) : List Char := s.data

/-- Lower-case a text character-wise (models `str.lower()` at ASCII
precision, which covers all data the claims touch). -/
def toLowerL (s : List Char) : List Char := s.map Char.toLower

/-- Does `p` occur at the head of `s`? -/
def hasPfx : List Char → List Char → Bool
  | [], _ => true
  | _ :: _, [] => false
  | p :: ps, c :: cs => p = c && hasPfx ps cs

/-- Does `p` occur at the head of `s`, comparing case-insensitively? -/
def hasPfxCI : List Char → List Char → Bool
  | [], _ => true
  | _ :: _, [] => false
  | p :: ps, c :: cs => p.toLower = c.toLower && hasPfxCI ps cs

/-- Does `pat` occur anywhere inside `s` (models Python's `in` on strings)? -/
def isSubstrL (pat : List Char) : List Char → Bool
  | [] => hasPfx pat []
  | c :: cs => hasPfx pat (c :: cs) || isSubstrL pat cs

/-- Python `str.strip()`. -/
def stripL (s : List Char) : List Char :=
  ((s.dropWhile pySpace).reverse.dropWhile pySpace).reverse

/-- Fueled worker for `pyReplace`. -/
def replaceStrF : Nat → List Char → List Char → List Char → List Char
  | 0, _, _, s => s
  | _, [], _, s => s
  | _ + 1, _ :: _, _, [] => []
  | fuel + 1, p :: ps, rep, c :: cs =>
    if hasPfx (p :: ps) (c :: cs) then
      rep ++ replaceStrF fuel (p :: ps) rep (List.drop (p :: ps).length (c :: cs))
    else
      c :: replaceStrF fuel (p :: ps) rep cs

/-- Python `str.replace(pat, rep)`: replace every non-overlapping leftmost
occurrence. -/
def pyReplace (s pat rep : List Char) : List Char :=
  replaceStrF s.length pat rep s

/-- Fueled worker for `replaceCI`. -/
def replaceCIF : Nat → List Char → List Char → List Char → List Char
  | 0, _, _, s => s
  | _, [], _, s => s
  | _ + 1, _ :: _, _, [] => []
  | fuel + 1, p :: ps, rep, c :: cs =>
    if hasPfxCI (p :: ps) (c :: cs) then
      rep ++ replaceCIF fuel (p :: ps) rep (List.drop (p :: ps).length (c :: cs))
    else
      c :: replaceCIF fuel (p :: ps) rep cs

/-- Case-insensitive literal replacement: models
`re.compile(re.escape(pat), re.IGNORECASE).sub(rep, s)`. -/
def replaceCI (s pat rep : List Char) : List Char :=
  replaceCIF s.length pat rep s

/-- Replace every character satisfying `t` by `rep` (models `re.sub` whose
pattern is a single character class). -/
def replaceClassF : Nat → (Char → Bool) → List Char → List Char → List Char
  | 0, _, _, s => s
  | _ + 1, _, _, [] => []
  | fuel + 1, t, rep, c :: cs =>
    if t c then rep ++ replaceClassF fuel t rep cs
    else c :: replaceClassF fuel t rep cs

/-- Wrapper for `replaceClassF` with sufficient fuel. -/
def replaceClass (t : Char → Bool) (rep s : List Char) : List Char :=
  replaceClassF s.length t rep s

/-- Fueled worker for `collapseWs`. -/
def collapseWsF : Nat → List Char → List Char
  | 0, s => s
  | _ + 1, [] => []
  | fuel + 1, c :: cs =>
    if pySpace c then ' ' :: collapseWsF fuel (cs.dropWhile pySpace)
    else c :: collapseWsF fuel cs

/-- Models `re.sub(r'\s+', ' ', s)`: each maximal whitespace run becomes a
single space. -/
def collapseWs (s : List Char) : List Char := collapseWsF s.length s

/-- Python `str.split()` (split on whitespace runs, dropping empty pieces),
carrying the current word reversed. -/
def splitWsGo : List Char → List Char → List (List Char)
  | [], acc => if acc = [] then [] else [acc.reverse]
  | c :: rest, acc =>
    if pySpace c then
      if acc = [] then splitWsGo rest [] else acc.reverse :: splitWsGo rest []
    else splitWsGo rest (c :: acc)

/-- Python `str.split()`. -/
def splitWs (s : List Char) : List (List Char) := splitWsGo s []

/-- Remove duplicates keeping the first occurrence (the order of a Python
`set` is irrelevant here: sets are only ever consulted for sizes and
intersection sizes). -/
def dedupFirst : List (List Char) → List (List Char)
  | [] => []
  | x :: xs => x :: (dedupFirst xs).filter (fun y => y ≠ x)

/-- Size of the intersection of two duplicate-free word lists
(`len(a & b)` on Python sets). -/
def interCount (a b : List (List Char)) : Nat :=
  a.countP (fun w => decide (w ∈ b))

end SciDigest

namespace SciDigest

/-- Atom of a regex character class. -/
inductive CAtom where
  | lit (c : Char)
  | rng (lo hi : Char)
  | dC
  | wC
  | sC

/-- Regex abstract syntax, covering the constructs used by
`science_digest.py`: literals, `.`, character classes (possibly negated),
concatenation, alternation, counted/greedy/lazy repetition, capturing
groups, `\b`, `^`, `$` and lookahead `(?=...)`. -/
inductive Re where
  | eps
  | ch (c : Char)
  | dot
  | cls (neg : Bool) (atoms : List CAtom)
  | cat (a b : Re)
  | alt (a b : Re)
  | rep (lo : Nat) (hi : Option Nat) (lz : Bool) (r : Re)
  | grp (n : Nat) (r : Re)
  | bnd
  | bol
  | eol
  | look (r : Re)

/-- Captured group texts, most recent first. -/
abbrev Caps := List (Nat × List Char)

/-- Does character `c` satisfy one class atom (under `re.IGNORECASE` when
`icase` is set, following Python's case closure of classes)? -/
def catomTest (icase : Bool) (a : CAtom) (c : Char) : Bool :=
  let t : Char → Bool := fun x =>
    match a with
    | .lit d => x = d
    | .rng lo hi => lo ≤ x && x ≤ hi
    | .dC => x.isDigit
    | .wC => pyWord x
    | .sC => pySpace x
  t c || (icase && (t c.toLower || t c.toUpper))

/-- Does character `c` match the (possibly negated) class? -/
def clsTest (icase neg : Bool) (atoms : List CAtom) (c : Char) : Bool :=
  let hit := atoms.any (fun a => catomTest icase a c)
  if neg then !hit else hit

/-- Is an optional character a word character (`\b` helper)? -/
def wordO : Option Char → Bool
  | none => false
  | some c => pyWord c

/-- Is the head of the remaining input a word character (`\b` helper)? -/
def wordHead : List Char → Bool
  | [] => false
  | c :: _ => pyWord c

/-- Backtracking matcher in continuation-passing style, following Python
`re` semantics (leftmost-biased alternation, greedy/lazy repetition with
backtracking).  `prev` is the character before the current position (for
`\b` and `^`), `s` the remaining input, `caps` the captures so far; the
continuation receives the updated position state.  Fuel bounds the
backtracking; wrappers supply fuel that is ample for every call site. -/
def reM (icase : Bool) :
    Nat → Re → Option Char → List Char → Caps →
    (Option Char → List Char → Caps → Option (List Char × Caps)) →
    Option (List Char × Caps)
  | 0, _, _, _, _, _ => none
  | fuel + 1, r, prev, s, caps, k =>
    match r with
    | .eps => k prev s caps
    | .ch c =>
      match s with
      | [] => none
      | x :: xs =>
        if x = c || (icase && x.toLower = c.toLower) then k (some x) xs caps else none
    | .dot =>
      match s with
      | [] => none
      | x :: xs => if x = '\n' then none else k (some x) xs caps
    | .cls neg atoms =>
      match s with
      | [] => none
      | x :: xs => if clsTest icase neg atoms x then k (some x) xs caps else none
    | .cat a b =>
      reM icase fuel a prev s caps (fun p2 s2 c2 => reM icase fuel b p2 s2 c2 k)
    | .alt a b =>
      match reM icase fuel a prev s caps k with
      | some res => some res
      | none => reM icase fuel b prev s caps k
    | .rep lo hi lz r1 =>
      let hiZero := match hi with | some 0 => true | _ => false
      let hiP := hi.map (fun h => h - 1)
      if hiZero then
        if lo = 0 then k prev s caps else none
      else if lo = 0 then
        let iter := fun () =>
          reM icase fuel r1 prev s caps (fun p2 s2 c2 =>
            if s2.length = s.length then none
            else reM icase fuel (.rep 0 hiP lz r1) p2 s2 c2 k)
        if lz then
          match k prev s caps with
          | some res => some res
          | none => iter ()
        else
          match iter () with
          | some res => some res
          | none => k prev s caps
      else
        reM icase fuel r1 prev s caps (fun p2 s2 c2 =>
          reM icase fuel (.rep (lo - 1) hiP lz r1) p2 s2 c2 k)
    | .grp n r1 =>
      reM icase fuel r1 prev s caps (fun p2 s2 c2 =>
        k p2 s2 ((n, s.take (s.length - s2.length)) :: c2))
    | .bnd =>
      if wordO prev ≠ wordHead s then k prev s caps else none
    | .bol => if prev = none then k prev s caps else none
    | .eol => if s = [] || s = ['\n'] then k prev s caps else none
    | .look r1 =>
      match reM icase fuel r1 prev s caps (fun _ s2 c2 => some (s2, c2)) with
      | some (_, c2) => k prev s c2
      | none => none

/-- Fuel ample for any match attempt on input `s` with this program's
patterns. -/
def innerFuel (s : List Char) : Nat :=
  4000 + 100 * (s.length + 1) * (s.length + 1)

/-- Try to match `r` exactly at the current position with the given match
fuel (`prev` is the preceding character).  On success returns
(matched text, remaining input, captures). -/
def reMatchAtF (icase : Bool) (mfuel : Nat) (r : Re) (prev : Option Char) (s : List Char) :
    Option (List Char × List Char × Caps) :=
  match reM icase mfuel r prev s [] (fun _ s2 c2 => some (s2, c2)) with
  | some (s2, caps) => some (s.take (s.length - s2.length), s2, caps)
  | none => none

/-- `reMatchAtF` with ample fuel. -/
def reMatchAt (icase : Bool) (r : Re) (prev : Option Char) (s : List Char) :
    Option (List Char × List Char × Caps) :=
  reMatchAtF icase (innerFuel s) r prev s

/-- Worker for `reSearch`: try each start position from left to right
(the match fuel is computed once for the whole input). -/
def reSearchGo (icase : Bool) (r : Re) (mfuel : Nat) :
    Nat → Option Char → List Char → Option (List Char × List Char × Caps)
  | 0, _, _ => none
  | fuel + 1, prev, s =>
    match reMatchAtF icase mfuel r prev s with
    | some res => some res
    | none =>
      match s with
      | [] => none
      | c :: cs => reSearchGo icase r mfuel fuel (some c) cs

/-- Models `re.search`: leftmost match of `r` in `s`; returns
(matched text, remaining input, captures). -/
def reSearch (icase : Bool) (r : Re) (s : List Char) :
    Option (List Char × List Char × Caps) :=
  reSearchGo icase r (innerFuel s) (s.length + 1) none s

/-- Does `r` match anywhere in `s` (`re.search(...) is not None`)? -/
def hasMatch (icase : Bool) (r : Re) (s : List Char) : Bool :=
  (reSearch icase r s).isSome

/-- Models `re.match`: match anchored at the start of `s`. -/
def matchAt0 (icase : Bool) (r : Re) (s : List Char) :
    Option (List Char × List Char × Caps) :=
  reMatchAt icase r none s

/-- Item of a replacement template: literal text or a backreference. -/
inductive RpI where
  | lit (s : List Char)
  | gref (n : Nat)

/-- Look up the latest capture of group `n` (empty if absent). -/
def capLookup (caps : Caps) (n : Nat) : List Char :=
  match caps.find? (fun p => decide (p.1 = n)) with
  | some p => p.2
  | none => []

/-- Instantiate a replacement template with the captures of a match. -/
def applyRp (rp : List RpI) (caps : Caps) : List Char :=
  match rp with
  | [] => []
  | .lit s :: rest => s ++ applyRp rest caps
  | .gref n :: rest => capLookup caps n ++ applyRp rest caps

/-- Last character of a matched chunk, falling back to the previous
position state (used to maintain `\b` context across a substitution;
Python matches against the original string while building the output). -/
def lastCharO (l : List Char) (dflt : Option Char) : Option Char :=
  match l.getLast? with
  | some c => some c
  | none => dflt

/-- Worker for `reSub`: scan positions left to right, replacing each
leftmost non-overlapping match and continuing after it (the match fuel is
computed once for the whole input). -/
def reSubGo (icase : Bool) (r : Re) (rp : List RpI) (mfuel : Nat) :
    Nat → Option Char → List Char → List Char
  | 0, _, s => s
  | fuel + 1, prev, s =>
    match reMatchAtF icase mfuel r prev s with
    | some (m, rest, caps) =>
      match m with
      | [] =>
        match s with
        | [] => applyRp rp caps
        | c :: cs => applyRp rp caps ++ c :: reSubGo icase r rp mfuel fuel (some c) cs
      | _ :: _ => applyRp rp caps ++ reSubGo icase r rp mfuel fuel (lastCharO m prev) rest
    | none =>
      match s with
      | [] => []
      | c :: cs => c :: reSubGo icase r rp mfuel fuel (some c) cs

/-- Models global `re.sub(r, rp, s)` (with `re.IGNORECASE` when `icase`). -/
def reSub (icase : Bool) (r : Re) (rp : List RpI) (s : List Char) : List Char :=
  reSubGo icase r rp (innerFuel s) (s.length + 1) none s

/-- Concatenation of a regex list. -/
def rseq : List Re → Re
  | [] => .eps
  | [r] => r
  | r :: rs => .cat r (rseq rs)

/-- Alternation of a regex list (left-biased, like Python). -/
def raltL : List Re → Re
  | [] => .eps
  | [r] => r
  | r :: rs => .alt r (raltL rs)

/-- Literal character-list regex. -/
def rlit (s : List Char) : Re := rseq (s.map Re.ch)

/-- Literal string regex. -/
def rstr (s : String) : Re := rlit s.data

/-- `r?` -/
def ropt (r : Re) : Re := .rep 0 (some 1) false r

/-- `r*` (greedy) -/
def rstar (r : Re) : Re := .rep 0 none false r

/-- `r+` (greedy) -/
def rplus (r : Re) : Re := .rep 1 none false r

/-- `r*?` (lazy) -/
def rstarLz (r : Re) : Re := .rep 0 none true r

/-- `r{lo,hi}` -/
def rbetween (lo hi : Nat) (r : Re) : Re := .rep lo (some hi) false r

/-- `r{lo,}` -/
def ratleast (lo : Nat) (r : Re) : Re := .rep lo none false r

/-- `[A-Z]` -/
def rupper : Re := .cls false [.rng 'A' 'Z']

/-- `[a-z]` -/
def rlower : Re := .cls false [.rng 'a' 'z']

/-- `[a-zA-Z]` -/
def ralpha : Re := .cls false [.rng 'a' 'z', .rng 'A' 'Z']

/-- `\d` -/
def rdigit : Re := .cls false [.dC]

/-- `\w` -/
def rword : Re := .cls false [.wC]

/-- `\s` -/
def rspace : Re := .cls false [.sC]

end SciDigest

namespace SciDigest

/-- The HTML entity `&#39;` used as the safe apostrophe replacement. -/
def amp39 : List Char := "&#39;".data

/-- The HTML entity `&quot;` used as the safe quote replacement. -/
def quotEnt : List Char := "&quot;".data

/-- Step 1 of `normalize_characters`: the `mojibake_patterns` table,
verbatim (UTF-8 bytes misread as Latin-1/Windows-1252). -/
def mojibake_patterns : List (List Char × List Char) :=
  [("â\u0080\u0099".data, amp39),
   ("â\u0080\u0098".data, amp39),
   ("â\u0080\u009c".data, quotEnt),
   ("â\u0080\u009d".data, quotEnt),
   ("â\u0080\u0093".data, "-".data),
   ("â\u0080\u0094".data, "-".data),
   ("â\u0080¦".data, "...".data),
   ("Â ".data, " ".data)]

/-- `re.sub(r'â\u0080.', "&#39;", text)`: U+00E2 followed by U+0080
followed by any character other than a newline. -/
def subA80dotF : Nat → List Char → List Char
  | 0, s => s
  | _ + 1, [] => []
  | fuel + 1, c :: cs =>
    if c = 'â' then
      match cs with
      | d :: e :: rest =>
        if d = '\u0080' && e ≠ '\n' then amp39 ++ subA80dotF fuel rest
        else c :: subA80dotF fuel cs
      | _ => c :: subA80dotF fuel cs
    else c :: subA80dotF fuel cs

/-- Wrapper for `subA80dotF`. -/
def subA80dot (s : List Char) : List Char := subA80dotF s.length s

/-- `re.sub(r'â.', "&#39;", text)`: U+00E2 followed by any character
other than a newline. -/
def subAdotF : Nat → List Char → List Char
  | 0, s => s
  | _ + 1, [] => []
  | fuel + 1, c :: cs =>
    if c = 'â' then
      match cs with
      | d :: rest =>
        if d ≠ '\n' then amp39 ++ subAdotF fuel rest
        else c :: subAdotF fuel cs
      | [] => c :: subAdotF fuel cs
    else c :: subAdotF fuel cs

/-- Wrapper for `subAdotF`. -/
def subAdot (s : List Char) : List Char := subAdotF s.length s

/-- `re.sub(r'€\s*(?=\w)', "&#39;", text)`: a Euro sign and the
following whitespace run are replaced when the first character after the
run is a word character (the lookahead is not consumed). -/
def subEuroLAF : Nat → List Char → List Char
  | 0, s => s
  | _ + 1, [] => []
  | fuel + 1, c :: cs =>
    if c = '€' then
      match cs.dropWhile pySpace with
      | d :: rest =>
        if pyWord d then amp39 ++ subEuroLAF fuel (d :: rest)
        else c :: subEuroLAF fuel cs
      | [] => c :: subEuroLAF fuel cs
    else c :: subEuroLAF fuel cs

/-- Wrapper for `subEuroLAF`. -/
def subEuroLA (s : List Char) : List Char := subEuroLAF s.length s

/-- `re.sub(r"'€\s*", "&#39;", text)`: an ASCII apostrophe followed by
a Euro sign and any whitespace run. -/
def subQuoteEuroF : Nat → List Char → List Char
  | 0, s => s
  | _ + 1, [] => []
  | fuel + 1, c :: cs =>
    if c = '\'' then
      match cs with
      | d :: rest =>
        if d = '€' then amp39 ++ subQuoteEuroF fuel (rest.dropWhile pySpace)
        else c :: subQuoteEuroF fuel cs
      | [] => c :: subQuoteEuroF fuel cs
    else c :: subQuoteEuroF fuel cs

/-- Wrapper for `subQuoteEuroF`. -/
def subQuoteEuro (s : List Char) : List Char := subQuoteEuroF s.length s

/-- Step 3 of `normalize_characters`: the `unicode_map` table, verbatim
and in source order. -/
def unicode_map : List (Char × List Char) :=
  [('‘', amp39),
   ('’', amp39),
   ('“', quotEnt),
   ('”', quotEnt),
   ('′', amp39),
   ('″', quotEnt),
   ('\u0060', amp39),
   ('´', amp39),
   ('–', "-".data),
   ('—', "-".data),
   ('―', "-".data),
   ('‒', "-".data),
   (' ', " ".data),
   ('…', "...".data),
   ('«', quotEnt),
   ('»', quotEnt),
   ('‚', amp39),
   ('„', quotEnt),
   ('â', amp39)]

/-- The class `[‘’‚‛]` of step 4. -/
def quoteCls1 (c : Char) : Bool :=
  c = '‘' || c = '’' || c = '‚' || c = '‛'

/-- The class `[“”„‟]` of step 4. -/
def quoteCls2 (c : Char) : Bool :=
  c = '“' || c = '”' || c = '„' || c = '‟'

/-- `normalize_characters(text)` from `science_digest.py`: mojibake repair,
residual corrupted-sequence sweeps, the smart-punctuation map and the final
quote-class sweeps, in source order.  Empty input is returned unchanged. -/
def normalize_characters (text : List Char) : List Char :=
  if text = [] then text
  else
    let t := mojibake_patterns.foldl (fun t p => pyReplace t p.1 p.2) text
    let t := subA80dot t
    let t := subAdot t
    let t := subEuroLA t
    let t := subQuoteEuro t
    let t := unicode_map.foldl (fun t p => pyReplace t [p.1] p.2) t
    let t := replaceClass quoteCls1 amp39 t
    let t := replaceClass quoteCls2 quotEnt t
    t

end SciDigest

namespace SciDigest

/-- The `[.,;:!?]` class. -/
def puncts : Re := .cls false [.lit '.', .lit ',', .lit ';', .lit ':', .lit '!', .lit '?']

/-- The `ui_patterns` table of `fix_spacing_and_grammar`, verbatim and in
source order; every entry is substituted by a single space, ignoring case. -/
def ui_patterns : List Re :=
  [rseq [rstr "Previous", rstar rspace, rstr "image", rstar rspace, rstr "Next", rstar rspace, rstr "image"],
   rseq [rstr "Next", rstar rspace, rstr "image", rstar rspace, rstr "Previous", rstar rspace, rstr "image"],
   rseq [rstr "Previous", rstar rspace, rstr "image"],
   rseq [rstr "Next", rstar rspace, rstr "image"],
   rseq [rstr "Share", rstar rspace, rstr "on", rstar rspace,
         .grp 1 (raltL [rstr "Facebook", rstr "Twitter", rstr "LinkedIn", rstr "Email"])],
   rseq [rstr "Share", rstar rspace, rstr "this", rstar rspace, rstr "article"],
   rseq [rstr "Read", rstar rspace, rstr "more", ropt (.ch ':')],
   rseq [rstr "See", rstar rspace, rstr "also", ropt (.ch ':')],
   rseq [rstr "Related", ropt (.ch ':')],
   rstr "Advertisement",
   rseq [rstr "Sponsored", rstar rspace, rstr "content"],
   rseq [rstr "Click", rstar rspace, rstr "to", rstar rspace, rstr "expand"],
   rseq [rstr "Show", rstar rspace, rstr "caption"],
   rseq [rstr "Hide", rstar rspace, rstr "caption"],
   rseq [rstr "Image", rstar rspace, rplus rdigit, rstar rspace, rstr "of", rstar rspace, rplus rdigit],
   rseq [rstr "Photo", rstar rspace, rstr "by", ropt (.ch ':')],
   rstr "Credit:",
   rstr "Photograph:",
   rseq [.ch '[', rstarLz .dot, .ch ']']]

/-- The `word_fixes` table of `fix_spacing_and_grammar` (pattern,
replacement template), verbatim and in source order; each is applied
ignoring case. -/
def word_fixes : List (Re × List RpI) :=
  [(rseq [.bnd, .grp 1 (rseq [ratleast 3 rword, .ch 's']),
          .grp 2 (raltL [rstr "published", rstr "released", rstr "reported",
                         rstr "discovered", rstr "revealed", rstr "found",
                         rseq [rstr "show", ropt (.ch 's')], rstr "left", rstr "right"]),
          .bnd],
    [.gref 1, .lit (strL " "), .gref 2]),
   (rseq [.bnd, rstr "astatement", .bnd], [.lit (strL "a statement")]),
   (rseq [.bnd, rstr "another", .bnd], [.lit (strL "another")]),
   (rseq [.bnd, rstr "about", .bnd], [.lit (strL "about")]),
   (rseq [.bnd, rstr "ofthe", .bnd], [.lit (strL "of the")]),
   (rseq [.bnd, rstr "inthe", .bnd], [.lit (strL "in the")]),
   (rseq [.bnd, rstr "tothe", .bnd], [.lit (strL "to the")]),
   (rseq [.bnd, rstr "forthe", .bnd], [.lit (strL "for the")]),
   (rseq [.bnd, rstr "andthe", .bnd], [.lit (strL "and the")]),
   (rseq [.bnd, rstr "onthe", .bnd], [.lit (strL "on the")]),
   (rseq [.bnd, rstr "atthe", .bnd], [.lit (strL "at the")]),
   (rseq [.bnd, rstr "bythe", .bnd], [.lit (strL "by the")]),
   (rseq [.bnd, rstr "fromthe", .bnd], [.lit (strL "from the")]),
   (rseq [.bnd, rstr "withthe", .bnd], [.lit (strL "with the")]),
   (rseq [.bnd, rstr "thatthe", .bnd], [.lit (strL "that the")]),
   (rseq [.bnd, rstr "isthe", .bnd], [.lit (strL "is the")]),
   (rseq [.bnd, rstr "asthe", .bnd], [.lit (strL "as the")]),
   (rseq [.bnd, rstr "wasthe", .bnd], [.lit (strL "was the")]),
   (rseq [.bnd, rstr "arethe", .bnd], [.lit (strL "are the")]),
   (rseq [.bnd, rstr "werethe", .bnd], [.lit (strL "were the")]),
   (rseq [.bnd, rstr "authorsdiscuss"], [.lit (strL "authors discuss")]),
   (rseq [.bnd, rstr "researchersfound"], [.lit (strL "researchers found")]),
   (rseq [.bnd, rstr "scientistsdiscovered"], [.lit (strL "scientists discovered")]),
   (rseq [.bnd, rstr "studyshows"], [.lit (strL "study shows")]),
   (rseq [.bnd, rstr "resultsshow"], [.lit (strL "results show")]),
   (rseq [.bnd, rstr "datashows"], [.lit (strL "data shows")]),
   (rseq [.bnd, rstr "findingsshow"], [.lit (strL "findings show")]),
   (rseq [.bnd, rstr "teamfound"], [.lit (strL "team found")]),
   (rseq [.bnd, rstr "accordingto"], [.lit (strL "according to")])]

/-- `fix_spacing_and_grammar(text)` from `science_digest.py`: UI-artifact
removal, digit/letter and camel-case spacing repairs, the `word_fixes`
table, hyphen and whitespace normalisation, in source order.  Empty input
is returned unchanged. -/
def fix_spacing_and_grammar (text : List Char) : List Char :=
  if text = [] then text
  else
    -- ui_patterns loop: re.sub(pattern, ' ', text, flags=re.IGNORECASE)
    let t := ui_patterns.foldl (fun t p => reSub true p [.lit (strL " ")] t) text
    -- re.sub(r'(\d)([a-zA-Z])', r'\1 \2', text)
    let t := reSub false (rseq [.grp 1 rdigit, .grp 2 ralpha])
      [.gref 1, .lit (strL " "), .gref 2] t
    -- re.sub(r'([a-zA-Z])(\d)', r'\1 \2', text)
    let t := reSub false (rseq [.grp 1 ralpha, .grp 2 rdigit])
      [.gref 1, .lit (strL " "), .gref 2] t
    -- re.sub(r'\.([A-Z])', r'. \1', text)
    let t := reSub false (rseq [.ch '.', .grp 1 rupper]) [.lit (strL ". "), .gref 1] t
    -- re.sub(r',([A-Z])', r', \1', text)
    let t := reSub false (rseq [.ch ',', .grp 1 rupper]) [.lit (strL ", "), .gref 1] t
    -- re.sub(r':([A-Z])', r': \1', text)
    let t := reSub false (rseq [.ch ':', .grp 1 rupper]) [.lit (strL ": "), .gref 1] t
    -- re.sub(r';([A-Z])', r'; \1', text)
    let t := reSub false (rseq [.ch ';', .grp 1 rupper]) [.lit (strL "; "), .gref 1] t
    -- re.sub(r'([a-z])([A-Z][a-z]{2,})', r'\1 \2', text)
    let t := reSub false (rseq [.grp 1 rlower, .grp 2 (rseq [rupper, ratleast 2 rlower])])
      [.gref 1, .lit (strL " "), .gref 2] t
    -- word_fixes loop: re.sub(pattern, replacement, text, flags=re.IGNORECASE)
    let t := word_fixes.foldl (fun t p => reSub true p.1 p.2 t) t
    -- re.sub(r'\bin([A-Z]\.)', r'in \1', text)
    let t := reSub false (rseq [.bnd, rstr "in", .grp 1 (rseq [rupper, .ch '.'])])
      [.lit (strL "in "), .gref 1] t
    -- re.sub(r'(\w)-([A-Z])', r'\1 - \2', text)
    let t := reSub false (rseq [.grp 1 rword, .ch '-', .grp 2 rupper])
      [.gref 1, .lit (strL " - "), .gref 2] t
    -- re.sub(r'\s+', ' ', text)
    let t := reSub false (rplus rspace) [.lit (strL " ")] t
    -- re.sub(r'\s+([.,;:!?])', r'\1', text)
    let t := reSub false (rseq [rplus rspace, .grp 1 puncts]) [.gref 1] t
    -- re.sub(r'([.,;:!?])([A-Za-z])', r'\1 \2', text)
    let t := reSub false (rseq [.grp 1 puncts, .grp 2 ralpha])
      [.gref 1, .lit (strL " "), .gref 2] t
    -- re.sub(r'\.{2,}', '.', text)
    let t := reSub false (ratleast 2 (.ch '.')) [.lit (strL ".")] t
    -- re.sub(r',{2,}', ',', text)
    let t := reSub false (ratleast 2 (.ch ',')) [.lit (strL ",")] t
    -- return text.strip()
    stripL t

end SciDigest

namespace SciDigest

/-- The word-simplification `replacements` table of `simplify_text`,
verbatim and in insertion order. -/
def replacements : List (List Char × List Char) :=
  [(strL "approximately", strL "about"),
   (strL "utilize", strL "use"),
   (strL "demonstrate", strL "show"),
   (strL "investigate", strL "study"),
   (strL "significant", strL "important"),
   (strL "subsequently", strL "then"),
   (strL "preliminary", strL "early"),
   (strL "hypothesis", strL "idea"),
   (strL "methodology", strL "method"),
   (strL "phenomenon", strL "event"),
   (strL "unprecedented", strL "never seen before"),
   (strL "substantial", strL "large"),
   (strL "consequently", strL "so"),
   (strL "furthermore", strL "also"),
   (strL "nevertheless", strL "but"),
   (strL "comprehensive", strL "complete"),
   (strL "fundamental", strL "basic"),
   (strL "facilitate", strL "help"),
   (strL "implement", strL "use"),
   (strL "indicate", strL "show"),
   (strL "sufficient", strL "enough"),
   (strL "obtain", strL "get"),
   (strL "require", strL "need"),
   (strL "maintain", strL "keep"),
   (strL "establish", strL "set up"),
   (strL "additional", strL "more"),
   (strL "numerous", strL "many"),
   (strL "attempt", strL "try"),
   (strL "commence", strL "start"),
   (strL "terminate", strL "end"),
   (strL "endeavor", strL "try"),
   (strL "ascertain", strL "find out"),
   (strL "constitute", strL "make up"),
   (strL "regarding", strL "about"),
   (strL "prior to", strL "before"),
   (strL "in addition to", strL "besides"),
   (strL "in order to", strL "to"),
   (strL "due to the fact that", strL "because"),
   (strL "at this point in time", strL "now"),
   (strL "in the event that", strL "if")]

/-- `simplify_text(text)` from `science_digest.py`: character
normalisation, spacing repair, whitespace collapse, then one pass of
case-insensitive literal substitutions over the `replacements` table. -/
def simplify_text (text : List Char) : List Char :=
  let t := normalize_characters text
  let t := fix_spacing_and_grammar t
  -- re.sub(r'\s+', ' ', text).strip()
  let t := stripL (collapseWs t)
  -- for complex_word, simple_word in replacements.items():
  --   re.compile(re.escape(complex_word), re.IGNORECASE).sub(simple_word, ...)
  replacements.foldl (fun t p => replaceCI t p.1 p.2) t

end SciDigest

namespace SciDigest

/-- `(January|February|...|December)` month alternation. -/
def monthsAlt : Re :=
  raltL [rstr "January", rstr "February", rstr "March", rstr "April", rstr "May",
         rstr "June", rstr "July", rstr "August", rstr "September", rstr "October",
         rstr "November", rstr "December"]

/-- `[^,\.]*` -/
def rNotCommaDotStar : Re := rstar (.cls true [.lit ',', .lit '.'])

/-- The anchored header pattern of the `lambda` substitution
`re.sub(r'^[A-Z][a-z]+(\s+[a-z]+){0,3}\s+[A-Z]', lambda m: ..., sent)`. -/
def headerKeepRe : Re :=
  rseq [.bol, rupper, rplus rlower,
        .rep 0 (some 3) false (.grp 1 (rseq [rplus rspace, rplus rlower])),
        rplus rspace, rupper]

/-- The `lambda` substitution of `generate_simple_explanation`: the match
(anchored at the start) is kept if longer than 50 characters and deleted
otherwise.  `re.sub` with an anchored `^` pattern can only fire at
position 0. -/
def subHeaderKeep (s : List Char) : List Char :=
  match matchAt0 false headerKeepRe s with
  | some (m, rest, _) => if 50 < m.length then s else rest
  | none => s

/-- Per-candidate scrubbing chain of `generate_simple_explanation`
(source lines 819-919), in source order; each step cites the `re.sub`
it models. -/
def cleanSentence (sent : List Char) : List Char :=
  -- re.sub(r'"[^"]*"', '', sent)  (twice in the source)
  let s := reSub false (rseq [.ch '"', rstar (.cls true [.lit '"']), .ch '"']) [] sent
  let s := reSub false (rseq [.ch '"', rstar (.cls true [.lit '"']), .ch '"']) [] s
  -- re.sub(r'"[^"]*$', '', sent)
  let s := reSub false (rseq [.ch '"', rstar (.cls true [.lit '"']), .eol]) [] s
  -- re.sub(r'\b(Dr\.|Prof\.|Professor)\s+[A-Z][a-z]+(\s+[A-Z][a-z]+)?', 'researchers', sent)
  let s := reSub false (rseq [.bnd, .grp 1 (raltL [rstr "Dr.", rstr "Prof.", rstr "Professor"]),
    rplus rspace, rupper, rplus rlower,
    ropt (.grp 2 (rseq [rplus rspace, rupper, rplus rlower]))]) [.lit (strL "researchers")] s
  -- re.sub(r'\b[A-Z][a-z]+\s+(and\s+)?(colleagues|co-authors|team)', 'researchers', sent)
  let s := reSub false (rseq [.bnd, rupper, rplus rlower, rplus rspace,
    ropt (.grp 1 (rseq [rstr "and", rplus rspace])),
    .grp 2 (raltL [rstr "colleagues", rstr "co-authors", rstr "team"])])
    [.lit (strL "researchers")] s
  -- re.sub(r'\b[A-Z][a-z]+\s+(explains?|notes?|says?|adds?)\b', 'Researchers say', sent)
  let s := reSub false (rseq [.bnd, rupper, rplus rlower, rplus rspace,
    .grp 1 (raltL [rseq [rstr "explain", ropt (.ch 's')], rseq [rstr "note", ropt (.ch 's')],
                   rseq [rstr "say", ropt (.ch 's')], rseq [rstr "add", ropt (.ch 's')]]),
    .bnd]) [.lit (strL "Researchers say")] s
  -- re.sub(r'\b[A-Z][a-z]{2,15}\s+(shared|presented|described|reported|argued|proposed|suggested|published|found|showed)\b', 'Researchers \1', sent)
  let s := reSub false (rseq [.bnd, rupper, rbetween 2 15 rlower, rplus rspace,
    .grp 1 (raltL [rstr "shared", rstr "presented", rstr "described", rstr "reported",
                   rstr "argued", rstr "proposed", rstr "suggested", rstr "published",
                   rstr "found", rstr "showed"]), .bnd])
    [.lit (strL "Researchers "), .gref 1] s
  -- re.sub(r'\b[A-Z][a-z]{2,15}\s+and\s+(his|her|their)\s+', 'Researchers and their ', sent)
  let s := reSub false (rseq [.bnd, rupper, rbetween 2 15 rlower, rplus rspace,
    rstr "and", rplus rspace, .grp 1 (raltL [rstr "his", rstr "her", rstr "their"]),
    rplus rspace]) [.lit (strL "Researchers and their ")] s
  -- re.sub(r'\b[A-Z][a-z]{2,10}\s+(researchers|scientists|team)\b', '\1', sent)
  let s := reSub false (rseq [.bnd, rupper, rbetween 2 10 rlower, rplus rspace,
    .grp 1 (raltL [rstr "researchers", rstr "scientists", rstr "team"]), .bnd])
    [.gref 1] s
  -- re.sub(r',?\s*[A-Z][a-z]+\s+[A-Z][a-z]+,?\s*(a |the )?(lead |co-)?author[^,\.]*[,\.]?', '', sent)
  let s := reSub false (rseq [ropt (.ch ','), rstar rspace, rupper, rplus rlower,
    rplus rspace, rupper, rplus rlower, ropt (.ch ','), rstar rspace,
    ropt (.grp 1 (raltL [rstr "a ", rstr "the "])),
    ropt (.grp 2 (raltL [rstr "lead ", rstr "co-"])),
    rstr "author", rNotCommaDotStar, ropt (.cls false [.lit ',', .lit '.'])]) [] s
  -- re.sub(r'\b(lead |co-)?author\s+[A-Z][a-z]+\s+[A-Z][a-z]+', 'researchers', sent)
  let s := reSub false (rseq [.bnd, ropt (.grp 1 (raltL [rstr "lead ", rstr "co-"])),
    rstr "author", rplus rspace, rupper, rplus rlower, rplus rspace, rupper, rplus rlower])
    [.lit (strL "researchers")] s
  -- re.sub(r'\b(University|Institute|College|Center|Centre)\s+of\s+[A-Z][\w\s,]+', 'a research institution', sent)
  let s := reSub false (rseq [.bnd,
    .grp 1 (raltL [rstr "University", rstr "Institute", rstr "College", rstr "Center", rstr "Centre"]),
    rplus rspace, rstr "of", rplus rspace, rupper, rplus (.cls false [.wC, .sC, .lit ','])])
    [.lit (strL "a research institution")] s
  -- re.sub(r'\b[A-Z][a-z]+\s+(University|Institute|College|State)\b', 'a research institution', sent)
  let s := reSub false (rseq [.bnd, rupper, rplus rlower, rplus rspace,
    .grp 1 (raltL [rstr "University", rstr "Institute", rstr "College", rstr "State"]), .bnd])
    [.lit (strL "a research institution")] s
  -- re.sub(r'\bETH\s+Zurich\b', 'researchers', sent)
  let s := reSub false (rseq [.bnd, rstr "ETH", rplus rspace, rstr "Zurich", .bnd])
    [.lit (strL "researchers")] s
  -- re.sub(r'\b(NASA|NOAA|NSF|NIH|ESA)\b', 'scientists', sent)
  let s := reSub false (rseq [.bnd,
    .grp 1 (raltL [rstr "NASA", rstr "NOAA", rstr "NSF", rstr "NIH", rstr "ESA"]), .bnd])
    [.lit (strL "scientists")] s
  -- re.sub(r'\b(Swiss Federal Institute|National Research Council)[^,\.]*', 'a research institution', sent)
  let s := reSub false (rseq [.bnd,
    .grp 1 (raltL [rstr "Swiss Federal Institute", rstr "National Research Council"]),
    rNotCommaDotStar]) [.lit (strL "a research institution")] s
  -- re.sub(r'\bVrije Universiteit\s+\w+', 'a research institution', sent)
  let s := reSub false (rseq [.bnd, rstr "Vrije Universiteit", rplus rspace, rplus rword])
    [.lit (strL "a research institution")] s
  -- re.sub(r'\s*\([A-Z]{2,6}\)', '', sent)
  let s := reSub false (rseq [rstar rspace, .ch '(', rbetween 2 6 rupper, .ch ')']) [] s
  -- re.sub(r"\bAGU's?\s+\d{4}\s+Annual\s+Meeting[^,\.]*", '', sent)
  let s := reSub false (rseq [.bnd, rstr "AGU", .ch '\'', ropt (.ch 's'), rplus rspace,
    rbetween 4 4 rdigit, rplus rspace, rstr "Annual", rplus rspace, rstr "Meeting",
    rNotCommaDotStar]) [] s
  -- re.sub(r'\bat\s+AGU\d*\b', '', sent)
  let s := reSub false (rseq [.bnd, rstr "at", rplus rspace, rstr "AGU", rstar rdigit, .bnd]) [] s
  -- re.sub(r'\bin\s+[A-Z][a-z]+,?\s+[A-Z][a-z]+\s*$', '', sent)
  let s := reSub false (rseq [.bnd, rstr "in", rplus rspace, rupper, rplus rlower,
    ropt (.ch ','), rplus rspace, rupper, rplus rlower, rstar rspace, .eol]) [] s
  -- re.sub(r'\b(published|appears?|reported)\s+(in|on)\s+(the\s+)?(AGU\s+)?journal\s+[A-Z][\w\s]+', 'published', sent)
  let s := reSub false (rseq [.bnd,
    .grp 1 (raltL [rstr "published", rseq [rstr "appear", ropt (.ch 's')], rstr "reported"]),
    rplus rspace, .grp 2 (raltL [rstr "in", rstr "on"]), rplus rspace,
    ropt (.grp 3 (rseq [rstr "the", rplus rspace])),
    ropt (.grp 4 (rseq [rstr "AGU", rplus rspace])),
    rstr "journal", rplus rspace, rupper, rplus (.cls false [.wC, .sC])])
    [.lit (strL "published")] s
  -- re.sub(r'\bin\s+the\s+(AGU\s+)?journal\s+[A-Z][\w\s&]+', '', sent)
  let s := reSub false (rseq [.bnd, rstr "in", rplus rspace, rstr "the", rplus rspace,
    ropt (.grp 1 (rseq [rstr "AGU", rplus rspace])),
    rstr "journal", rplus rspace, rupper, rplus (.cls false [.wC, .sC, .lit '&'])]) [] s
  -- re.sub(r'\bthe\s+AGU\s+journal\s+[A-Z][\w\s]+', '', sent)
  let s := reSub false (rseq [.bnd, rstr "the", rplus rspace, rstr "AGU", rplus rspace,
    rstr "journal", rplus rspace, rupper, rplus (.cls false [.wC, .sC])]) [] s
  -- re.sub(r'\b(Science|Nature|PNAS|Cell)\s+(Advances|Communications|Reports)?', 'a scientific journal', sent)
  let s := reSub false (rseq [.bnd,
    .grp 1 (raltL [rstr "Science", rstr "Nature", rstr "PNAS", rstr "Cell"]), rplus rspace,
    ropt (.grp 2 (raltL [rstr "Advances", rstr "Communications", rstr "Reports"]))])
    [.lit (strL "a scientific journal")] s
  -- re.sub(r'\bGeophysical Research Letters\b', '', sent)
  let s := reSub false (rseq [.bnd, rstr "Geophysical Research Letters", .bnd]) [] s
  -- re.sub(r'\b(January|...|December)\s+\d{1,2},?\s+\d{4}', '', sent)
  let s := reSub false (rseq [.bnd, .grp 1 monthsAlt, rplus rspace, rbetween 1 2 rdigit,
    ropt (.ch ','), rplus rspace, rbetween 4 4 rdigit]) [] s
  -- re.sub(r'\bon\s+(January|...|December)\s+\d{1,2}', '', sent)
  let s := reSub false (rseq [.bnd, rstr "on", rplus rspace, .grp 1 monthsAlt,
    rplus rspace, rbetween 1 2 rdigit]) [] s
  -- re.sub(r'\b\d{4}\s+(study|research|paper|report)', 'new research', sent)
  let s := reSub false (rseq [.bnd, rbetween 4 4 rdigit, rplus rspace,
    .grp 1 (raltL [rstr "study", rstr "research", rstr "paper", rstr "report"])])
    [.lit (strL "new research")] s
  -- re.sub(r'\bDecember\s+\d+\s+at\s+AGU\d+', '', sent)
  let s := reSub false (rseq [.bnd, rstr "December", rplus rspace, rplus rdigit,
    rplus rspace, rstr "at", rplus rspace, rstr "AGU", rplus rdigit]) [] s
  -- re.sub(r'\bIn\s+\d{4},\s*', '', sent)
  let s := reSub false (rseq [.bnd, rstr "In", rplus rspace, rbetween 4 4 rdigit,
    .ch ',', rstar rspace]) [] s
  -- re.sub(r'\b(January|...|December)\s+\d{1,2}\b', '', sent)
  let s := reSub false (rseq [.bnd, .grp 1 monthsAlt, rplus rspace,
    rbetween 1 2 rdigit, .bnd]) [] s
  -- re.sub(r'\bpublished\s+(on\s+)?(January|...|December)\s+\d{1,2}', 'published', sent)
  let s := reSub false (rseq [.bnd, rstr "published", rplus rspace,
    ropt (.grp 1 (rseq [rstr "on", rplus rspace])), .grp 2 monthsAlt,
    rplus rspace, rbetween 1 2 rdigit]) [.lit (strL "published")] s
  -- re.sub(r'\bin\s+the\s+Proceedings\s+of\s+[^,\.]+', '', sent)
  let s := reSub false (rseq [.bnd, rstr "in", rplus rspace, rstr "the", rplus rspace,
    rstr "Proceedings", rplus rspace, rstr "of", rplus rspace,
    rplus (.cls true [.lit ',', .lit '.'])]) [] s
  -- re.sub(r'\bProceedings\s+of\s+the\s+National\s+Academy\s+of\s+Sciences\b', '', sent)
  let s := reSub false (rseq [.bnd, rstr "Proceedings", rplus rspace, rstr "of", rplus rspace,
    rstr "the", rplus rspace, rstr "National", rplus rspace, rstr "Academy", rplus rspace,
    rstr "of", rplus rspace, rstr "Sciences", .bnd]) [] s
  -- re.sub(r'\(cf\.[^)]+\)', '', sent)
  let s := reSub false (rseq [.ch '(', rstr "cf.", rplus (.cls true [.lit ')']), .ch ')']) [] s
  -- re.sub(r'\bcf\.\s*[A-Z][a-zA-Z\s]+', '', sent)
  let s := reSub false (rseq [.bnd, rstr "cf.", rstar rspace, rupper,
    rplus (.cls false [.rng 'a' 'z', .rng 'A' 'Z', .sC])]) [] s
  -- re.sub(r'\bRM\s+J[\d\.\+]+', 'the cluster', sent)
  let s := reSub false (rseq [.bnd, rstr "RM", rplus rspace, .ch 'J',
    rplus (.cls false [.dC, .lit '.', .lit '+'])]) [.lit (strL "the cluster")] s
  -- re.sub(r'\b[A-Z]{1,3}\s+J?\d{4,}[\d\.\+\-]+', 'the object', sent)
  let s := reSub false (rseq [.bnd, rbetween 1 3 rupper, rplus rspace, ropt (.ch 'J'),
    ratleast 4 rdigit, rplus (.cls false [.dC, .lit '.', .lit '+', .lit '-'])])
    [.lit (strL "the object")] s
  -- re.sub(r'\bETH\s+researchers\b', 'researchers', sent)
  let s := reSub false (rseq [.bnd, rstr "ETH", rplus rspace, rstr "researchers", .bnd])
    [.lit (strL "researchers")] s
  -- re.sub(r'\bthe\s+researchers-led\s+team\b', 'the research team', sent)
  let s := reSub false (rseq [.bnd, rstr "the", rplus rspace, rstr "researchers-led",
    rplus rspace, rstr "team", .bnd]) [.lit (strL "the research team")] s
  -- re.sub(r'\b[A-Z][a-z]+(\s+[A-Z][a-z]+){1,4}\s+(?=[A-Z][a-z]+\s+(study|research|team|scientists|researchers|found|shows?))', '', sent)
  let s := reSub false (rseq [.bnd, rupper, rplus rlower,
    .rep 1 (some 4) false (.grp 1 (rseq [rplus rspace, rupper, rplus rlower])),
    rplus rspace,
    .look (rseq [rupper, rplus rlower, rplus rspace,
      .grp 2 (raltL [rstr "study", rstr "research", rstr "team", rstr "scientists",
                     rstr "researchers", rstr "found", rseq [rstr "show", ropt (.ch 's')]])])]) [] s
  -- re.sub(r'^[A-Z][a-z]+(\s+[a-z]+){0,3}\s+[A-Z]', lambda m: m.group(0) if len(m.group(0)) > 50 else '', sent)
  let s := subHeaderKeep s
  -- re.sub(r'^[A-Z][a-z]+(\s+[a-z]+){0,6}\s+The\s+', 'The ', sent)
  let s := reSub false (rseq [.bol, rupper, rplus rlower,
    .rep 0 (some 6) false (.grp 1 (rseq [rplus rspace, rplus rlower])),
    rplus rspace, rstr "The", rplus rspace]) [.lit (strL "The ")] s
  -- re.sub(r',?\s*(said|says|noted|added|explained)\s+[\w\s\.,]+$', '', sent, flags=re.IGNORECASE)
  let s := reSub true (rseq [ropt (.ch ','), rstar rspace,
    .grp 1 (raltL [rstr "said", rstr "says", rstr "noted", rstr "added", rstr "explained"]),
    rplus rspace, rplus (.cls false [.wC, .sC, .lit '.', .lit ',']), .eol]) [] s
  -- re.sub(r',?\s*(according to|led by)\s+[\w\s\.,]+$', '', sent, flags=re.IGNORECASE)
  let s := reSub true (rseq [ropt (.ch ','), rstar rspace,
    .grp 1 (raltL [rstr "according to", rstr "led by"]),
    rplus rspace, rplus (.cls false [.wC, .sC, .lit '.', .lit ',']), .eol]) [] s
  -- re.sub(r'\s+', ' ', sent).strip()
  let s := stripL (collapseWs s)
  -- re.sub(r':the\b', ': the', sent)
  let s := reSub false (rseq [rstr ":the", .bnd]) [.lit (strL ": the")] s
  -- re.sub(r'\s*:\s*$', '.', sent)
  let s := reSub false (rseq [rstar rspace, .ch ':', rstar rspace, .eol]) [.lit (strL ".")] s
  -- re.sub(r'\s+\.', '.', sent)
  let s := reSub false (rseq [rplus rspace, .ch '.']) [.lit (strL ".")] s
  -- re.sub(r'\.{2,}', '.', sent)
  let s := reSub false (ratleast 2 (.ch '.')) [.lit (strL ".")] s
  -- re.sub(r',\s*,', ',', sent)
  let s := reSub false (rseq [.ch ',', rstar rspace, .ch ',']) [.lit (strL ",")] s
  -- re.sub(r'^\s*,\s*', '', sent)
  let s := reSub false (rseq [.bol, rstar rspace, .ch ',', rstar rspace]) [] s
  -- re.sub(r',\s*\.', '.', sent)
  let s := reSub false (rseq [.ch ',', rstar rspace, .ch '.']) [.lit (strL ".")] s
  -- re.sub(r'\bresearchers researchers\b', 'researchers', sent, flags=re.IGNORECASE)
  let s := reSub true (rseq [.bnd, rstr "researchers researchers", .bnd])
    [.lit (strL "researchers")] s
  -- re.sub(r'\bthe the\b', 'the', sent, flags=re.IGNORECASE)
  let s := reSub true (rseq [.bnd, rstr "the the", .bnd]) [.lit (strL "the")] s
  -- re.sub(r'\ba a\b', 'a', sent, flags=re.IGNORECASE)
  let s := reSub true (rseq [.bnd, rstr "a a", .bnd]) [.lit (strL "a")] s
  -- re.sub(r'\bin the a research institution\b', 'at a research institution', sent, flags=re.IGNORECASE)
  let s := reSub true (rseq [.bnd, rstr "in the a research institution", .bnd])
    [.lit (strL "at a research institution")] s
  -- re.sub(r'\bthe Swiss a research institution\b', 'a Swiss research institution', sent, flags=re.IGNORECASE)
  let s := reSub true (rseq [.bnd, rstr "the Swiss a research institution", .bnd])
    [.lit (strL "a Swiss research institution")] s
  -- re.sub(r'\bthe a research institution\b', 'a research institution', sent, flags=re.IGNORECASE)
  let s := reSub true (rseq [.bnd, rstr "the a research institution", .bnd])
    [.lit (strL "a research institution")] s
  -- re.sub(r'\bled by researchers,\s*a research institution[^,\.]*,?\s*(and\s+)?a research institution[^,\.]*', 'led by researchers at various institutions', sent, flags=re.IGNORECASE)
  let s := reSub true (rseq [.bnd, rstr "led by researchers,", rstar rspace,
    rstr "a research institution", rNotCommaDotStar, ropt (.ch ','), rstar rspace,
    ropt (.grp 1 (rseq [rstr "and", rplus rspace])),
    rstr "a research institution", rNotCommaDotStar])
    [.lit (strL "led by researchers at various institutions")] s
  -- re.sub(r'\bled by researchers,\s*a research institution[^,\.]*', 'led by researchers', sent, flags=re.IGNORECASE)
  let s := reSub true (rseq [.bnd, rstr "led by researchers,", rstar rspace,
    rstr "a research institution", rNotCommaDotStar]) [.lit (strL "led by researchers")] s
  -- re.sub(r'\bResearchers and their colleagues\b', 'Researchers', sent)
  let s := reSub false (rseq [.bnd, rstr "Researchers and their colleagues", .bnd])
    [.lit (strL "Researchers")] s
  -- re.sub(r'\bresearchers and their colleagues\b', 'researchers', sent)
  let s := reSub false (rseq [.bnd, rstr "researchers and their colleagues", .bnd])
    [.lit (strL "researchers")] s
  -- re.sub(r',\s*and\s*,', ' and', sent)
  let s := reSub false (rseq [.ch ',', rstar rspace, rstr "and", rstar rspace, .ch ','])
    [.lit (strL " and")] s
  -- re.sub(r'\bat\s*,', 'in', sent)
  let s := reSub false (rseq [.bnd, rstr "at", rstar rspace, .ch ',']) [.lit (strL "in")] s
  -- re.sub(r'\bresearch\s*,\s*Category', 'proposed a Category', sent)
  let s := reSub false (rseq [.bnd, rstr "research", rstar rspace, .ch ',', rstar rspace,
    rstr "Category"]) [.lit (strL "proposed a Category")] s
  -- re.sub(r'\s+', ' ', sent).strip()
  stripL (collapseWs s)

end SciDigest

namespace SciDigest

/-- `sent[0].islower() or sent[0] in '"("'` (structural rejection of
fragments; `islower` modelled at ASCII precision). -/
def startsBad : List Char → Bool
  | [] => false
  | c :: _ => c.isLower || c = '"' || c = '('

/-- `re.match(r'^[A-Z][a-z]+(\s+[A-Z][a-z]+){1,5}\s*$', sent)`:
bare section-header shape. -/
def isHeaderLike (s : List Char) : Bool :=
  (matchAt0 false (rseq [.bol, rupper, rplus rlower,
    .rep 1 (some 5) false (.grp 1 (rseq [rplus rspace, rupper, rplus rlower])),
    rstar rspace, .eol]) s).isSome

/-- The `incomplete_patterns` list of `generate_simple_explanation`,
verbatim and in source order (each is searched with `re.IGNORECASE`). -/
def incomplete_patterns : List Re :=
  [rseq [.bnd, .grp 1 (raltL [rstr "describe", rstr "describes", rstr "described"]),
         rplus rspace, rstr "as", rplus rspace,
         ropt (.grp 2 (rseq [rstr "being", rplus rspace])),
         ropt (.grp 3 (rseq [rstr "in", rplus rspace])), .ch 'a', rstar rspace, .eol],
   rseq [.bnd, rstr "become", rplus rspace, rstr "what", rplus rspace, rstr "scientists",
         rplus rspace, rstr "describe", rplus rspace, rstr "as", rplus rspace, rstr "That", .bnd],
   rseq [.bnd, rstr "In", rplus rspace, rstr "this", rplus rspace, rstr "context,",
         rstar rspace, .eol],
   rseq [.bnd, .grp 1 (raltL [rstr "say", rstr "says"]), rplus rspace, rstr "that",
         rstar rspace, .eol],
   rseq [.bnd, rstr "Researchers", rplus rspace, rstr "say.", rplus rspace, rstr "As", .bnd],
   rseq [.bnd, rstr "We", rplus rspace, rstr "picked", .bnd],
   rseq [.bnd, rstr "Researchers", rplus rspace, rstr "say", rplus rspace, rstr "that",
         rplus rspace, rstr "this", rplus rspace, rstr "narrow", .bnd],
   rseq [.bnd, rstr "published", rplus rspace, rstr "on", rstar rspace, .ch '.',
         rstar rspace, .eol],
   rseq [.bnd, .ch 'A', rplus rspace, rstr "study", rplus rspace, rstr "published",
         rplus rspace, rstr "on", rstar rspace, .ch '.'],
   rseq [.bnd, rstr "the", rplus rspace, rstr "researchers", rplus rspace, rstr "reported.",
         rplus rspace, rstr "Impossible", .bnd],
   rseq [.bnd, rstr "in", rplus rspace, rstr "Louisiana", rstar rspace, .ch '.', .eol],
   rseq [.bnd, rstr "Researchers", rplus rspace, rstr "shared", rplus rspace, rstr "the",
         rplus rspace, rstr "research", rplus rspace, rstr "during", rplus rspace,
         rstr "an", rplus rspace, rstr "oral"],
   rseq [.bol, rupper, rplus rlower,
         .rep 2 (some 12) false (.grp 1 (rseq [rplus rspace, rplus rlower])),
         rplus rspace, rstr "The", rplus rspace]]

/-- Does any incomplete-sentence signature match
(`re.search(pattern, sent, re.IGNORECASE)`)? -/
def isIncomplete (s : List Char) : Bool :=
  incomplete_patterns.any (fun p => hasMatch true p s)

/-- `if sent and sent[-1] not in '.!?': sent += '.'` -/
def ensureEnd (s : List Char) : List Char :=
  match s.getLast? with
  | none => s
  | some c => if c = '.' || c = '!' || c = '?' then s else s ++ ['.']

/-- `if sent and sent[0].islower(): sent = sent[0].upper() + sent[1:]` -/
def capFirst : List Char → List Char
  | [] => []
  | c :: cs => if c.isLower then c.toUpper :: cs else c :: cs

/-- One iteration of the cleaning loop: scrub a candidate, then apply the
structural rejections in source order; survivors get terminal punctuation
and a capital first letter. -/
def processSentence (sent : List Char) : Option (List Char) :=
  let s := cleanSentence sent
  if s.length < 60 then none
  else if startsBad s then none
  else if isHeaderLike s then none
  else if isIncomplete s then none
  else some (capFirst (ensureEnd s))

/-- Fueled worker for `splitSentences`, carrying the current piece
reversed.  Models `re.split(r'(?<=[.!?])\s+(?=[A-Z])', all_text)`: a split
point is a whitespace run preceded by `.`, `!` or `?` and followed by a
capital letter; the run is consumed, the punctuation and capital are not. -/
def splitSentGo : Nat → List Char → List Char → List (List Char)
  | 0, acc, rest => [acc.reverse ++ rest]
  | _ + 1, acc, [] => [acc.reverse]
  | fuel + 1, acc, c :: cs =>
    if c = '.' || c = '!' || c = '?' then
      match cs.dropWhile pySpace, cs.takeWhile pySpace with
      | d :: rest, _ :: _ =>
        if 'A' ≤ d && d ≤ 'Z' then (c :: acc).reverse :: splitSentGo fuel [] (d :: rest)
        else splitSentGo fuel (c :: acc) cs
      | _, _ => splitSentGo fuel (c :: acc) cs
    else splitSentGo fuel (c :: acc) cs

/-- `re.split(r'(?<=[.!?])\s+(?=[A-Z])', all_text)`. -/
def splitSentences (s : List Char) : List (List Char) := splitSentGo s.length [] s

/-- Maximal `\w` runs of `s` (worker, current run reversed). -/
def wordRunsGo : List Char → List Char → List (List Char)
  | [], acc => if acc = [] then [] else [acc.reverse]
  | c :: rest, acc =>
    if pyWord c then wordRunsGo rest (c :: acc)
    else if acc = [] then wordRunsGo rest []
    else acc.reverse :: wordRunsGo rest []

/-- `set(re.findall(r'\b\w{4,}\b', s.lower()))`: the distinct words of at
least 4 letters (a maximal `\w` run matches `\b\w{4,}\b` exactly when it
has at least 4 characters). -/
def words4 (s : List Char) : List (List Char) :=
  dedupFirst ((wordRunsGo (toLowerL s) []).filter (fun w => 4 ≤ w.length))

/-- `is_similar_to_title(sentence, title)` from `science_digest.py`.
The float test `overlap / min(...) > 0.6` is exact integer arithmetic
`5 * overlap > 3 * min(...)` (IEEE division is correctly rounded and the
float literal `0.6` is the nearest float to 3/5, so the comparison agrees
with the rational one at these magnitudes). -/
def is_similar_to_title (sentence title : List Char) : Bool :=
  let sw := words4 sentence
  let tw := words4 title
  if sw = [] || tw = [] then false
  else 5 * interCount sw tw > 3 * min sw.length tw.length

/-- `set(sent.lower().split())`: case-folded word set used by the
near-duplicate check. -/
def wordSet (s : List Char) : List (List Char) :=
  dedupFirst (splitWs (toLowerL s))

/-- `discovery_words` (verbatim). -/
def discovery_words : List (List Char) :=
  [strL "found", strL "discovered", strL "shows", strL "revealed", strL "study",
   strL "research", strL "scientists", strL "researchers", strL "measured",
   strL "data", strL "results"]

/-- `impact_words` (verbatim). -/
def impact_words : List (List Char) :=
  [strL "could", strL "may", strL "might", strL "help", strL "important",
   strL "means", strL "change", strL "future", strL "first", strL "new",
   strL "understand"]

/-- Salience score of one sentence: +2 per discovery word present in the
lower-cased sentence, +1 per impact word present, +1 if the sentence
contains a digit (`re.search(r'\d+', sent)`). -/
def scoreSentence (sent : List Char) : Nat :=
  let sl := toLowerL sent
  let d := discovery_words.foldl (fun acc w => if isSubstrL w sl then acc + 2 else acc) 0
  let i := impact_words.foldl (fun acc w => if isSubstrL w sl then acc + 1 else acc) 0
  d + i + (if sent.any Char.isDigit then 1 else 0)

/-- The scored list: sentences longer than 300 characters are skipped
(`if len(sent) > 300: continue`), the rest are paired with their score. -/
def scoredOf (l : List (List Char)) : List (Nat × List Char) :=
  l.filterMap (fun s => if 300 < s.length then none else some (scoreSentence s, s))

/-- Stable descending insertion by score: an element is placed before the
first entry whose score is not larger, so equal scores keep their original
relative order (Python's stable `sort(reverse=True, key=...)`). -/
def insDesc (p : Nat × List Char) : List (Nat × List Char) → List (Nat × List Char)
  | [] => [p]
  | q :: rest => if q.1 ≤ p.1 then p :: q :: rest else q :: insDesc p rest

/-- `scored.sort(reverse=True, key=lambda x: x[0])` (stable). -/
def sortDesc : List (Nat × List Char) → List (Nat × List Char)
  | [] => []
  | p :: rest => insDesc p (sortDesc rest)

/-- The redundancy test of the selection loop:
`len(sent_words & prev_words) > len(sent_words) * 0.5` (the float product
`n * 0.5` is exact, so this is `2 * inter > n`). -/
def isRedundant (sw : List (List Char)) (used : List (List (List Char))) : Bool :=
  used.any (fun pw => 2 * interCount sw pw > sw.length)

/-- The greedy selection loop over the sorted scored list: add a sentence
when it is not redundant and its score is positive; stop as soon as three
have been selected (the `break` is checked after each iteration). -/
def selectLoop : List (Nat × List Char) → List (List Char) → List (List (List Char)) → List (List Char)
  | [], bp, _ => bp
  | (score, sent) :: rest, bp, used =>
    let sw := wordSet sent
    let add := !isRedundant sw used && 0 < score
    let bp2 := if add then bp ++ [sent] else bp
    let used2 := if add then used ++ [sw] else used
    if 3 ≤ bp2.length then bp2 else selectLoop rest bp2 used2

/-- Backfill worker: walk the candidate list in order, appending unseen
sentences until two are collected. -/
def backfillGo : List (List Char) → List (List Char) → List (List Char)
  | [], bp => bp
  | s :: rest, bp =>
    let bp2 := if s ∈ bp then bp else bp ++ [s]
    if 2 ≤ bp2.length then bp2 else backfillGo rest bp2

/-- `if len(bullet_points) < 2:` backfill from the candidate list in
original order, ignoring score and deduplication. -/
def backfill (cands : List (List Char)) (bp : List (List Char)) : List (List Char) :=
  if 2 ≤ bp.length then bp else backfillGo cands bp

/-- The fixed generic placeholder sentence of the final fallback. -/
def placeholderL : List Char :=
  strL "Scientists made new discoveries in this field of research."

/-- Final fallback: when nothing was selected, use the simplified summary
if it is non-empty and longer than 50 characters, otherwise the
placeholder. -/
def withFallback (bp : List (List Char)) (summary : List Char) : List (List Char) :=
  if bp = [] then
    let ss := simplify_text summary
    if ss ≠ [] && 50 < ss.length then [ss] else [placeholderL]
  else bp

/-- `all_text = f"{summary} {full_content}".strip()` -/
def allText (summary full : List Char) : List Char :=
  stripL (summary ++ ' ' :: full)

/-- Sentence segmentation of `generate_simple_explanation`: split on
punctuation boundaries, strip, keep pieces longer than 50 characters. -/
def segmentParts (t : List Char) : List (List Char) :=
  ((splitSentences t).map stripL).filter (fun p => 50 < p.length)

/-- The candidate sentences of the Distiller: assemble and simplify,
segment, drop title-similar sentences, then clean each sentence and apply
the structural rejections (`clean_sentences` in the source). -/
def candidateSentences (title summary full : List Char) : List (List Char) :=
  let t := simplify_text (allText summary full)
  let sentences := segmentParts t
  let titleS := simplify_text title
  let filtered := sentences.filter (fun s => !is_similar_to_title s titleS)
  filtered.filterMap processSentence

/-- The Distiller's bullet list before the final per-sentence spacing fix:
greedy selection over the stable-sorted scored candidates, then backfill,
then the fallback chain. -/
def bulletPointsPreFix (title summary full : List Char) : List (List Char) :=
  let cands := candidateSentences title summary full
  let sel := selectLoop (sortDesc (scoredOf cands)) [] []
  withFallback (backfill cands sel) summary

/-- The Distiller's final bullet list: at most the first three points, each
re-passed through `fix_spacing_and_grammar`. -/
def bulletPointsFinal (title summary full : List Char) : List (List Char) :=
  ((bulletPointsPreFix title summary full).take 3).map fix_spacing_and_grammar

/-- `generate_simple_explanation(title, summary, full_content)`: the HTML
bullet list built from the final points. -/
def generate_simple_explanation (title summary full : List Char) : List Char :=
  let items := (bulletPointsFinal title summary full).map
    (fun p => strL "<li>" ++ p ++ strL "</li>")
  List.intercalate (strL "\n")
    ([strL "<ul class=\"summary-bullets\">"] ++ items ++ [strL "</ul>"])

end SciDigest

namespace SciDigest

/-- `DOMAIN_KEYWORDS`, verbatim and in source (insertion) order. -/
def DOMAIN_KEYWORDS : List (List Char × List (List Char)) :=
  [(strL "Astronomy",
    [strL "space", strL "planet", strL "star", strL "galaxy", strL "moon", strL "mars",
     strL "nasa", strL "asteroid", strL "comet", strL "telescope", strL "orbit",
     strL "solar", strL "cosmic", strL "universe", strL "black hole", strL "supernova",
     strL "nebula", strL "spacecraft", strL "rocket", strL "satellite", strL "exoplanet",
     strL "astronomy", strL "astronaut", strL "celestial", strL "meteor", strL "jupiter",
     strL "saturn", strL "venus", strL "mercury", strL "neptune", strL "uranus",
     strL "milky way", strL "hubble", strL "webb", strL "iss",
     strL "international space station", strL "launch", strL "mission", strL "lunar"]),
   (strL "Wildlife",
    [strL "animal", strL "wildlife", strL "species", strL "mammal", strL "bird",
     strL "fish", strL "reptile", strL "amphibian", strL "insect", strL "predator",
     strL "prey", strL "endangered", strL "extinction", strL "conservation",
     strL "habitat", strL "zoo", strL "safari", strL "migration", strL "behavior",
     strL "wolf", strL "bear", strL "lion", strL "tiger", strL "elephant", strL "whale",
     strL "dolphin", strL "shark", strL "eagle", strL "owl", strL "snake", strL "frog",
     strL "butterfly", strL "bee", strL "ant", strL "spider", strL "primate",
     strL "ape", strL "monkey", strL "gorilla", strL "chimpanzee", strL "orangutan",
     strL "ocean life", strL "marine life", strL "coral reef", strL "rainforest",
     strL "savanna", strL "arctic animal", strL "polar bear", strL "penguin",
     strL "seal", strL "otter", strL "deer", strL "fox", strL "rabbit",
     strL "squirrel", strL "bat", strL "crocodile", strL "turtle", strL "parrot"]),
   (strL "Biology",
    [strL "cell", strL "dna", strL "gene", strL "evolution", strL "fossil",
     strL "dinosaur", strL "bacteria", strL "virus", strL "protein", strL "organism",
     strL "genetics", strL "mutation", strL "enzyme", strL "microbe", strL "biology",
     strL "life form", strL "reproduction", strL "anatomy", strL "brain",
     strL "neuron", strL "disease", strL "infection", strL "immune", strL "plant",
     strL "fungus", strL "ecosystem", strL "biodiversity", strL "molecular",
     strL "genome", strL "chromosome", strL "stem cell", strL "cancer",
     strL "antibiotic", strL "vaccine", strL "pathogen", strL "parasite"]),
   (strL "Climate",
    [strL "climate", strL "weather", strL "temperature", strL "warming", strL "carbon",
     strL "emission", strL "greenhouse", strL "ice", strL "glacier", strL "arctic",
     strL "antarctic", strL "sea level", strL "drought", strL "flood", strL "hurricane",
     strL "storm", strL "atmosphere", strL "pollution", strL "renewable",
     strL "energy", strL "fossil fuel", strL "ocean warming", strL "heat wave",
     strL "wildfire", strL "deforestation", strL "methane", strL "ozone",
     strL "el nino", strL "la nina", strL "precipitation", strL "rainfall",
     strL "snowfall", strL "permafrost", strL "ecosystem change",
     strL "environmental", strL "sustainability", strL "earth", strL "global"])]

/-- Keyword-hit count of one domain over the lower-cased concatenation
(`sum(1 for kw in keywords if kw in text)`). -/
def domainHits (kws : List (List Char)) (text : List Char) : Nat :=
  kws.countP (fun kw => isSubstrL kw text)

/-- Python `max(pairs, key=value)` over an association list: fold keeping
the current maximum, replacing it only on a strictly greater value, so the
first key attaining the maximum wins. -/
def pyMaxKey (l : List (List Char × Nat)) : Option (List Char) :=
  (l.foldl (fun acc p =>
    match acc with
    | none => some p
    | some q => if q.2 < p.2 then some p else some q) none).map (fun p => p.1)

/-- `classify_domain(title, summary)` from `science_digest.py`: score every
domain by keyword hits over the lower-cased `title + " " + summary`;
return the first domain with the maximal score if it is positive,
otherwise `none`. -/
def classify_domain (title summary : List Char) : Option (List Char) :=
  let text := toLowerL (title ++ ' ' :: summary)
  let scores := DOMAIN_KEYWORDS.map (fun p => (p.1, domainHits p.2 text))
  let maxv : Nat := (scores.map (fun p => p.2)).foldl max 0
  if 0 < maxv then pyMaxKey scores else none

/-- The classifier as worded by the specification: the topic whose
distinct-keyword substring-hit count over the lower-cased concatenation is
highest, `none` when the maximum is zero, ties resolved to the first topic
in the configured mapping order reaching the maximum. -/
def specClassify (title summary : List Char) : Option (List Char) :=
  let text := toLowerL (title ++ ' ' :: summary)
  let m : Nat := (DOMAIN_KEYWORDS.map (fun p => domainHits p.2 text)).foldl max 0
  if m = 0 then none
  else (DOMAIN_KEYWORDS.find? (fun p => decide (domainHits p.2 text = m))).map (fun p => p.1)

/-- `PAYWALLED_DOMAINS`, verbatim. -/
def PAYWALLED_DOMAINS : List (List Char) :=
  [strL "nature.com", strL "science.org", strL "sciencemag.org", strL "nytimes.com",
   strL "washingtonpost.com", strL "wsj.com", strL "newscientist.com",
   strL "scientificamerican.com", strL "theatlantic.com", strL "wired.com"]

/-- `PAYWALL_INDICATORS`, verbatim. -/
def PAYWALL_INDICATORS : List (List Char) :=
  [strL "subscribe to read", strL "subscription required", strL "premium content",
   strL "members only", strL "sign in to read", strL "create an account to continue",
   strL "free trial", strL "unlock this article", strL "paywall",
   strL "subscriber-only", strL "paid content", strL "register to continue reading",
   strL "already a subscriber", strL "become a member"]

/-- `is_paywalled_url(url)`: the lower-cased URL contains a deny-listed
domain as a substring. -/
def is_paywalled_url (url : List Char) : Bool :=
  PAYWALLED_DOMAINS.any (fun d => isSubstrL d (toLowerL url))

/-- A parsed page as `check_for_paywall` consumes it: its visible text
(`soup.get_text()`) and the outcomes of the seven `soup.select` queries
the function performs (whether each selector matched any DOM element). -/
structure SoupModel where
  text : List Char
  /-- `soup.select('[class*="paywall"], [class*="subscribe"], [class*="premium"], [id*="paywall"]')` nonempty -/
  selCombined : Bool
  /-- `soup.select('[class*="paywall"]')` nonempty -/
  selClassPaywall : Bool
  /-- `soup.select('[class*="subscriber-only"]')` nonempty -/
  selSubscriberOnly : Bool
  /-- `soup.select('[class*="premium-content"]')` nonempty -/
  selPremiumContent : Bool
  /-- `soup.select('[class*="locked-content"]')` nonempty -/
  selLockedContent : Bool
  /-- `soup.select('[data-paywall]')` nonempty -/
  selDataPaywall : Bool
  /-- `soup.select('.subscription-required')` nonempty -/
  selSubscriptionRequired : Bool

/-- The indicator loop of `check_for_paywall`: for each indicator phrase
contained in the page text, return true when the combined paywall-element
selector matched; otherwise keep scanning. -/
def indicatorLoop (pageText : List Char) (combined : Bool) : List (List Char) → Bool
  | [] => false
  | ind :: rest =>
    if isSubstrL ind pageText then
      if combined then true else indicatorLoop pageText combined rest
    else indicatorLoop pageText combined rest

/-- `check_for_paywall(soup, url)` from `science_digest.py`: deny-listed
URL, then indicator phrases paired with the combined selector, then the
six standalone paywall selectors. -/
def check_for_paywall (soup : SoupModel) (url : List Char) : Bool :=
  if is_paywalled_url url then true
  else
    let page_text := toLowerL soup.text
    if indicatorLoop page_text soup.selCombined PAYWALL_INDICATORS then true
    else
      soup.selClassPaywall || soup.selSubscriberOnly || soup.selPremiumContent ||
      soup.selLockedContent || soup.selDataPaywall || soup.selSubscriptionRequired

/-- `\d+(?:,\d{3})*(?:\.\d+)?`: the number form shared by the statistic
patterns. -/
def numBase : Re :=
  rseq [rplus rdigit, rstar (rseq [.ch ',', rbetween 3 3 rdigit]),
        ropt (rseq [.ch '.', rplus rdigit])]

/-- The `stat_patterns` list of `extract_key_statistic`, verbatim and in
priority order (percentage, multiplier, large number + unit, age,
distance/size, temperature, counted entity). -/
def stat_patterns : List Re :=
  [ -- r'(\d+(?:\.\d+)?)\s*(?:percent|%)\s+(?:of\s+)?([a-zA-Z\s]{5,40})'
   rseq [.grp 1 (rseq [rplus rdigit, ropt (rseq [.ch '.', rplus rdigit])]), rstar rspace,
         raltL [rstr "percent", .ch '%'], rplus rspace,
         ropt (rseq [rstr "of", rplus rspace]),
         .grp 2 (.rep 5 (some 40) false (.cls false [.rng 'a' 'z', .rng 'A' 'Z', .sC]))],
   -- r'(\d+(?:,\d{3})*(?:\.\d+)?)\s*(?:times?|x)\s+(?:more\s+|less\s+|faster\s+|slower\s+)?([a-zA-Z\s]{3,30})'
   rseq [.grp 1 numBase, rstar rspace,
         raltL [rseq [rstr "time", ropt (.ch 's')], .ch 'x'], rplus rspace,
         ropt (raltL [rseq [rstr "more", rplus rspace], rseq [rstr "less", rplus rspace],
                      rseq [rstr "faster", rplus rspace], rseq [rstr "slower", rplus rspace]]),
         .grp 2 (.rep 3 (some 30) false (.cls false [.rng 'a' 'z', .rng 'A' 'Z', .sC]))],
   -- r'(\d+(?:,\d{3})*(?:\.\d+)?)\s*(million|billion|trillion|thousand)\s+([a-zA-Z\s]{3,30})'
   rseq [.grp 1 numBase, rstar rspace,
         .grp 2 (raltL [rstr "million", rstr "billion", rstr "trillion", rstr "thousand"]),
         rplus rspace,
         .grp 3 (.rep 3 (some 30) false (.cls false [.rng 'a' 'z', .rng 'A' 'Z', .sC]))],
   -- r'(\d+(?:,\d{3})*(?:\.\d+)?)\s*(?:year|million year|billion year)s?\s+(?:old|ago)'
   rseq [.grp 1 numBase, rstar rspace,
         raltL [rstr "year", rstr "million year", rstr "billion year"], ropt (.ch 's'),
         rplus rspace, raltL [rstr "old", rstr "ago"]],
   -- r'(\d+(?:,\d{3})*(?:\.\d+)?)\s*(light[- ]?years?|miles?|kilometers?|km|meters?|feet)\s+(?:away|from|across|wide|long)'
   rseq [.grp 1 numBase, rstar rspace,
         .grp 2 (raltL [rseq [rstr "light", ropt (.cls false [.lit '-', .lit ' ']),
                              rstr "year", ropt (.ch 's')],
                        rseq [rstr "mile", ropt (.ch 's')],
                        rseq [rstr "kilometer", ropt (.ch 's')], rstr "km",
                        rseq [rstr "meter", ropt (.ch 's')], rstr "feet"]),
         rplus rspace,
         raltL [rstr "away", rstr "from", rstr "across", rstr "wide", rstr "long"]],
   -- r'(\d+(?:,\d{3})*(?:\.\d+)?)\s*(?:degrees?|°)\s*(?:Celsius|Fahrenheit|C|F)'
   rseq [.grp 1 numBase, rstar rspace,
         raltL [rseq [rstr "degree", ropt (.ch 's')], .ch '°'], rstar rspace,
         raltL [rstr "Celsius", rstr "Fahrenheit", .ch 'C', .ch 'F']],
   -- r'(?:more than\s+|over\s+|about\s+)?(\d+(?:,\d{3})*)\s+(?:new\s+)?(?:species|discoveries|stars?|planets?|galaxies)'
   rseq [ropt (raltL [rseq [rstr "more than", rplus rspace], rseq [rstr "over", rplus rspace],
                      rseq [rstr "about", rplus rspace]]),
         .grp 1 (rseq [rplus rdigit, rstar (rseq [.ch ',', rbetween 3 3 rdigit])]),
         rplus rspace, ropt (rseq [rstr "new", rplus rspace]),
         raltL [rstr "species", rstr "discoveries", rseq [rstr "star", ropt (.ch 's')],
                rseq [rstr "planet", ropt (.ch 's')], rstr "galaxies"]]]

/-- Try the statistic patterns in order (`re.search(pattern, text,
re.IGNORECASE)`); return the first whose stripped, whitespace-collapsed
match is shorter than 60 characters. -/
def tryStatGo : List Re → List Char → Option (List Char)
  | [], _ => none
  | p :: rest, text =>
    match reSearch true p text with
    | some (m, _, _) =>
      let fm := collapseWs (stripL m)
      if fm.length < 60 then some fm else tryStatGo rest text
    | none => tryStatGo rest text

/-- `re.split(r'[.!?]', text)` (keeps empty pieces), worker. -/
def splitPunctGo : List Char → List Char → List (List Char)
  | [], acc => [acc.reverse]
  | c :: rest, acc =>
    if c = '.' || c = '!' || c = '?' then acc.reverse :: splitPunctGo rest []
    else splitPunctGo rest (c :: acc)

/-- `re.split(r'[.!?]', text)`. -/
def splitPunct (text : List Char) : List (List Char) := splitPunctGo text []

/-- `\b\d{2,}(?:,\d{3})*\b` -/
def bigNumRe : Re :=
  rseq [.bnd, ratleast 2 rdigit, rstar (rseq [.ch ',', rbetween 3 3 rdigit]), .bnd]

/-- `\d+\s*%` -/
def pctRe : Re := rseq [rplus rdigit, rstar rspace, .ch '%']

/-- Fallback of `extract_key_statistic`: the first sentence containing a
2+-digit number or a percentage whose stripped length is strictly between
20 and 80. -/
def fallbackScan : List (List Char) → Option (List Char)
  | [] => none
  | sent :: rest =>
    if hasMatch false bigNumRe sent || hasMatch false pctRe sent then
      let s := stripL sent
      if 20 < s.length && s.length < 80 then some s else fallbackScan rest
    else fallbackScan rest

/-- `extract_key_statistic(content, title)` from `science_digest.py`:
`None` on empty content; otherwise try the patterns over
`content + " " + title`, then the sentence-scan fallback. -/
def extract_key_statistic (content title : List Char) : Option (List Char) :=
  if content = [] then none
  else
    let text := content ++ ' ' :: title
    match tryStatGo stat_patterns text with
    | some r => some r
    | none => fallbackScan (splitPunct text)

end SciDigest

namespace SciDigest

/-- Salience score as worded by the claim: 2 times the number of
discovery-indicator words present, plus the number of impact-indicator
words present, plus 1 for a digit. -/
def specScore (sent : List Char) : Nat :=
  2 * discovery_words.countP (fun w => isSubstrL w (toLowerL sent)) +
  impact_words.countP (fun w => isSubstrL w (toLowerL sent)) +
  (if sent.any Char.isDigit then 1 else 0)

/-- Does the text begin with a lowercase letter? -/
def startsLower : List Char → Bool
  | [] => false
  | c :: _ => c.isLower

/-- First candidate sentence of the near-duplicate counterexample. -/
def sentA : List Char :=
  strL "Researchers measured warm ocean water moving north in early spring."

/-- Second candidate sentence of the near-duplicate counterexample:
it shares 8 of its 10 distinct words with `sentA`. -/
def sentB : List Char :=
  strL "Researchers measured warm ocean water moving south in early autumn."

/-- A summary consisting of the two near-duplicate sentences. -/
def summaryAB : List Char := sentA ++ (' ' :: sentB)

/-- Summary whose bracketed aside holds a newline: the first bracket sweep
`\[.*?\]` cannot match across it (`.` excludes the newline), so the aside
survives cleaning into a 66-character candidate. -/
def summaryC : List Char :=
  strL "Researchers found data [foo\nbar] helps explain climate change now."

/-- The candidate the selection loop picks from `summaryC` (66 characters;
the newline has been collapsed to a space by the whitespace sweep). -/
def sentCpre : List Char :=
  strL "Researchers found data [foo bar] helps explain climate change now."

/-- The same bullet after the final per-bullet spacing pass, whose bracket
sweep now removes the aside: 56 characters. -/
def sentCpost : List Char :=
  strL "Researchers found data helps explain climate change now."

/-- The statistic-extraction example text of the specification. -/
def glacierL : List Char :=
  strL "The glacier has retreated 30% over the last decade."

/-- A page with empty text (hence no paywall-indicator phrase) whose
`[class*="paywall"]` selector matched one element. -/
def c4page : SoupModel :=
  { text := []
    selCombined := false
    selClassPaywall := true
    selSubscriberOnly := false
    selPremiumContent := false
    selLockedContent := false
    selDataPaywall := false
    selSubscriptionRequired := false }

end SciDigest

namespace SciDigest

/-- Maximum of the values of an association list (seed 0), as read off the
`scores` dictionary of `classify_domain`. -/
def maxValP (l : List (List Char × Nat)) : Nat :=
  (l.map (fun p => p.2)).foldl max 0

/-- Is the first character after leading whitespace a word character?
(the condition under which `subEuroLA` fires after a Euro sign). -/
def euroTrigB (s : List Char) : Bool :=
  match s.dropWhile pySpace with
  | [] => false
  | d :: _ => pyWord d

/-- No Euro sign in `s` is followed (after whitespace) by a word
character: `subEuroLA` has nothing left to replace. -/
def euroSafeB : List Char → Bool
  | [] => true
  | c :: rest => (if c = '€' then !euroTrigB rest else true) && euroSafeB rest

/-- Does the text start with a Euro sign? -/
def euroHead : List Char → Bool
  | [] => false
  | c :: _ => c = '€'

/-- No apostrophe in `s` is immediately followed by a Euro sign:
`subQuoteEuro` has nothing left to replace. -/
def noQEB : List Char → Bool
  | [] => true
  | a :: rest => !(a = '\'' && euroHead rest) && noQEB rest

/-- Admissibility of one substitution-table entry for both invariants. -/
def entryOK (p : Char) (r : List Char) : Prop :=
  noQEB r = true ∧ '€' ∉ r ∧ r.getLast? ≠ some '\'' ∧ r ≠ [] ∧
    ((∀ x ∈ r.take 1, pySpace x = false ∧ pyWord x = false) ∨
     (pySpace p = true ∧ ∀ x ∈ r, pySpace x = true))

instance entryOK_dec (p : Char) (r : List Char) : Decidable (entryOK p r) := by
  unfold entryOK
  infer_instance

/-- The last five stages of `normalize_characters`, from the Euro-sign
lookahead substitution on (used to reason about the pipeline's output). -/
def tailPipe (s : List Char) : List Char :=
  replaceClass quoteCls2 quotEnt
    (replaceClass quoteCls1 amp39
      (unicode_map.foldl (fun t p => pyReplace t [p.1] p.2)
        (subQuoteEuro (subEuroLA s))))

end SciDigest

namespace SciDigest

set_option maxRecDepth 1000000
set_option maxHeartbeats 2000000

-- ### Shared evaluation lemmas (each heavy computation is run once).

/-- The Distiller's candidate list on the near-duplicate summary. -/
theorem candEvalAB : candidateSentences [] summaryAB [] = [sentA, sentB] := by rfl

/-- The pre-fix bullet list on the near-duplicate summary: the selection
loop keeps only `sentA` (it rejects `sentB` as redundant), and the
backfill then re-adds `sentB` ignoring deduplication. -/
theorem preFixEvalAB : bulletPointsPreFix [] summaryAB [] = [sentA, sentB] := by
  unfold bulletPointsPreFix
  rw [candEvalAB]
  rfl

/-- `fix_spacing_and_grammar` leaves `sentA` unchanged. -/
theorem fixSentA : fix_spacing_and_grammar sentA = sentA := by rfl

/-- `fix_spacing_and_grammar` leaves `sentB` unchanged. -/
theorem fixSentB : fix_spacing_and_grammar sentB = sentB := by rfl

-- ### C3

/-- C3 counterexample: the Vocabulary Simplifier's substitution is not
whole-phrase: on input "required" the table entry "require" fires inside
the containing word, producing "needd". -/
theorem c3_counterexample : simplify_text (strL "required") = strL "needd" := by rfl

/-- C3 (amended): the substitution step replaces a table entry wherever it
occurs as a case-insensitive substring, with no word-boundary guard: the
entry ("require", "need") is in the table, and inside a sentence the word
"required" becomes "needd" (while "additional" becomes "more"). -/
theorem c3_substring_substitution :
    (strL "require", strL "need") ∈ replacements ∧
    simplify_text (strL "The work required additional time.") =
      strL "The work needd more time." := by
  exact ⟨by decide, by rfl⟩

-- ### C9 / C10

/-- C9: `extractStatistic` on the glacier sentence as content (empty
title) returns "30% over the last decade", which contains "30" and "%";
the first (percentage) pattern fires. -/
theorem c9_statistic_example :
    extract_key_statistic glacierL [] = some (strL "30% over the last decade") ∧
    isSubstrL (strL "30") (strL "30% over the last decade") = true ∧
    isSubstrL (strL "%") (strL "30% over the last decade") = true := by
  exact ⟨by rfl, by decide, by decide⟩

/-- C10: `extract_key_statistic` returns `none` whenever content is empty,
for every title — even though on the glacier title the patterns would
match the concatenation `content + " " + title` that the function never
reaches (third conjunct). -/
theorem c10_empty_content :
    (∀ title, extract_key_statistic [] title = none) ∧
    extract_key_statistic [] glacierL = none ∧
    tryStatGo stat_patterns (' ' :: glacierL) =
      some (strL "30% over the last decade") := by
  exact ⟨fun _ => rfl, rfl, by rfl⟩

-- ### C4

/-- C4 counterexample: a page whose text contains no paywall-indicator
phrase (it is empty) but whose `[class*="paywall"]` selector matched is
reported as paywalled, for a non-deny-listed URL — the claim's
"both conditions required" and "no phrase implies false" both fail. -/
theorem c4_counterexample :
    check_for_paywall c4page (strL "https://phys.org/news/x") = true ∧
    (∀ ind ∈ PAYWALL_INDICATORS, isSubstrL ind (toLowerL c4page.text) = false) ∧
    is_paywalled_url (strL "https://phys.org/news/x") = false := by
  exact ⟨by rfl, by decide, by decide⟩

/-- The indicator loop returns true exactly when some indicator phrase
occurs in the page text and the combined selector matched. -/
theorem indicatorLoop_eq (pt : List Char) (comb : Bool) (l : List (List Char)) :
    indicatorLoop pt comb l = (l.any (fun ind => isSubstrL ind pt) && comb) := by
  induction l with
  | nil => rfl
  | cons i rest ih =>
    unfold indicatorLoop
    by_cases h : isSubstrL i pt = true
    · rw [if_pos h]
      cases comb <;> simp [h, ih]
    · rw [if_neg h, ih]
      simp [h]

/-- C4 (amended): `check_for_paywall` is the disjunction of (a) the URL
deny-list, (b) an indicator phrase in the lower-cased text AND the
combined paywall selector, and (c) each of the six standalone paywall
selectors alone — the phrase/selector conjunction is only one disjunct,
and a selector hit alone suffices. -/
theorem c4_paywall_disjunction (p : SoupModel) (url : List Char) :
    check_for_paywall p url =
      (is_paywalled_url url ||
       (PAYWALL_INDICATORS.any (fun ind => isSubstrL ind (toLowerL p.text)) && p.selCombined) ||
       p.selClassPaywall || p.selSubscriberOnly || p.selPremiumContent ||
       p.selLockedContent || p.selDataPaywall || p.selSubscriptionRequired) := by
  unfold check_for_paywall
  by_cases h : is_paywalled_url url = true
  · simp [h]
  · simp only [Bool.not_eq_true] at h
    simp only [h, Bool.false_eq_true, if_false, Bool.false_or]
    rw [indicatorLoop_eq]
    cases hA : PAYWALL_INDICATORS.any (fun ind => isSubstrL ind (toLowerL p.text)) <;>
      cases hC : p.selCombined <;> simp

-- ### C5

/-- The fallback stage never returns an empty list. -/
theorem withFallback_ne_nil (bp : List (List Char)) (su : List Char) :
    withFallback bp su ≠ [] := by
  unfold withFallback
  split
  · dsimp only
    split <;> simp
  · assumption

/-- C5: for every title, summary and fullText (the empty ones included),
the Distiller is total by construction and its final bullet list has
between 1 and 3 sentences. -/
theorem c5_output_bounds (t su f : List Char) :
    1 ≤ (bulletPointsFinal t su f).length ∧ (bulletPointsFinal t su f).length ≤ 3 := by
  have hne : bulletPointsPreFix t su f ≠ [] := by
    unfold bulletPointsPreFix
    exact withFallback_ne_nil _ _
  have hlen : 0 < (bulletPointsPreFix t su f).length := List.length_pos.mpr hne
  unfold bulletPointsFinal
  rw [List.length_map, List.length_take]
  omega

-- ### C8

/-- Folding `+2` per hit equals twice the hit count. -/
theorem foldl_add2_count (ws : List (List Char)) (sl : List Char) (a : Nat) :
    ws.foldl (fun acc w => if isSubstrL w sl then acc + 2 else acc) a =
      a + 2 * ws.countP (fun w => isSubstrL w sl) := by
  induction ws generalizing a with
  | nil => simp
  | cons w rest ih =>
    simp only [List.foldl_cons, List.countP_cons]
    by_cases h : isSubstrL w sl = true
    · rw [if_pos h, if_pos h, ih]; omega
    · rw [if_neg h, if_neg h, ih]; omega

/-- Folding `+1` per hit equals the hit count. -/
theorem foldl_add1_count (ws : List (List Char)) (sl : List Char) (a : Nat) :
    ws.foldl (fun acc w => if isSubstrL w sl then acc + 1 else acc) a =
      a + ws.countP (fun w => isSubstrL w sl) := by
  induction ws generalizing a with
  | nil => simp
  | cons w rest ih =>
    simp only [List.foldl_cons, List.countP_cons]
    by_cases h : isSubstrL w sl = true
    · rw [if_pos h, if_pos h, ih]; omega
    · rw [if_neg h, if_neg h, ih]; omega

/-- C8: the salience score is exactly 2 x (discovery words present) +
1 x (impact words present) + 1 for a digit, and the scored list consists
of precisely the sentences of at most 300 characters (longer ones are
excluded), each paired with that score. -/
theorem c8_score_formula :
    (∀ sent, scoreSentence sent = specScore sent) ∧
    (∀ l : List (List Char), scoredOf l =
      (l.filter (fun s => decide (s.length ≤ 300))).map (fun s => (scoreSentence s, s))) := by
  constructor
  · intro sent
    unfold scoreSentence specScore
    dsimp only
    rw [foldl_add2_count, foldl_add1_count]
    omega
  · intro l
    induction l with
    | nil => rfl
    | cons s rest ih =>
      simp only [scoredOf, List.filterMap_cons, List.filter_cons] at *
      by_cases h : 300 < s.length
      · have : ¬ s.length ≤ 300 := by omega
        simp [h, this, ih]
      · have : s.length ≤ 300 := by omega
        simp [h, this, ih]

end SciDigest

namespace SciDigest

set_option maxRecDepth 1000000
set_option maxHeartbeats 2000000

-- ### C2

/-- Invariant of the selection loop: the used word sets are those of the
selected sentences, and every later selection overlaps each earlier one by
at most half of its own word set. -/
theorem selectLoop_invariant (scored : List (Nat × List Char))
    (bp : List (List Char)) (used : List (List (List Char)))
    (hu : used = bp.map wordSet)
    (hp : bp.Pairwise (fun a b => 2 * interCount (wordSet b) (wordSet a) ≤ (wordSet b).length)) :
    (selectLoop scored bp used).Pairwise
      (fun a b => 2 * interCount (wordSet b) (wordSet a) ≤ (wordSet b).length) := by
  induction scored generalizing bp used with
  | nil => simpa [selectLoop] using hp
  | cons p rest ih =>
    obtain ⟨score, sent⟩ := p
    unfold selectLoop
    dsimp only
    by_cases hadd : (!isRedundant (wordSet sent) used && decide (0 < score)) = true
    · rw [if_pos hadd, if_pos hadd]
      have hred : isRedundant (wordSet sent) used = false := by
        by_contra hcon
        have hT : isRedundant (wordSet sent) used = true := by simpa using hcon
        simp [hT] at hadd
      have hall : ∀ pw ∈ used, 2 * interCount (wordSet sent) pw ≤ (wordSet sent).length := by
        simpa [isRedundant] using hred
      have hp2 : (bp ++ [sent]).Pairwise
          (fun a b => 2 * interCount (wordSet b) (wordSet a) ≤ (wordSet b).length) := by
        rw [List.pairwise_append]
        refine ⟨hp, List.pairwise_singleton _ _, ?_⟩
        intro a ha b hb
        have hb' : b = sent := by simpa using hb
        subst hb'
        exact hall (wordSet a) (by rw [hu]; exact List.mem_map_of_mem _ ha)
      split
      · exact hp2
      · exact ih (bp ++ [sent]) (used ++ [wordSet sent])
          (by rw [hu, List.map_append, List.map_cons, List.map_nil]) hp2
    · rw [if_neg hadd, if_neg hadd]
      split
      · exact hp
      · exact ih bp used hu hp

/-- C2 (amended): among the sentences chosen by the scored selection loop,
every later one shares at most 50 percent of its own case-folded word set
with each earlier one; the backfill and fallback stages ignore this check,
so the final output can still contain an overlapping pair (see the
counterexample). -/
theorem c2_selection_dedup (scored : List (Nat × List Char)) :
    (selectLoop scored [] []).Pairwise
      (fun a b => 2 * interCount (wordSet b) (wordSet a) ≤ (wordSet b).length) :=
  selectLoop_invariant scored [] [] rfl List.Pairwise.nil

/-- C2 counterexample: `sentA` and `sentB` are candidate sentences whose
case-folded word sets overlap by more than 50 percent in both directions
(8 shared words of 10), yet both appear in the Distiller's final output:
the selection loop rejects `sentB` as redundant, but the backfill stage
re-adds it, ignoring deduplication. -/
theorem c2_counterexample :
    bulletPointsFinal [] summaryAB [] = [sentA, sentB] ∧
    sentA ∈ candidateSentences [] summaryAB [] ∧
    sentB ∈ candidateSentences [] summaryAB [] ∧
    sentA ≠ sentB ∧
    2 * interCount (wordSet sentB) (wordSet sentA) > (wordSet sentB).length ∧
    2 * interCount (wordSet sentA) (wordSet sentB) > (wordSet sentA).length := by
  refine ⟨?_, ?_, ?_, by decide, by decide, by decide⟩
  · unfold bulletPointsFinal
    rw [preFixEvalAB]
    have h3 : (([sentA, sentB] : List (List Char)).take 3) = [sentA, sentB] := rfl
    rw [h3]
    simp only [List.map_cons, List.map_nil, fixSentA, fixSentB]
  · rw [candEvalAB]; exact List.mem_cons_self _ _
  · rw [candEvalAB]; simp

-- ### C1

/-- Membership in a stable insertion keeps membership. -/
theorem mem_insDesc {x p : Nat × List Char} {l : List (Nat × List Char)}
    (h : x ∈ insDesc p l) : x = p ∨ x ∈ l := by
  induction l with
  | nil => simpa [insDesc] using h
  | cons q rest ih =>
    unfold insDesc at h
    split at h
    · simpa using h
    · rcases List.mem_cons.mp h with h1 | h2
      · exact Or.inr (by simp [h1])
      · rcases ih h2 with h3 | h4
        · exact Or.inl h3
        · exact Or.inr (List.mem_cons_of_mem _ h4)

/-- Sorting does not invent elements. -/
theorem mem_sortDesc {x : Nat × List Char} {l : List (Nat × List Char)}
    (h : x ∈ sortDesc l) : x ∈ l := by
  induction l with
  | nil => simpa [sortDesc] using h
  | cons p rest ih =>
    unfold sortDesc at h
    rcases mem_insDesc h with h1 | h2
    · simp [h1]
    · exact List.mem_cons_of_mem _ (ih h2)

/-- A scored pair's sentence comes from the candidate list. -/
theorem mem_scoredOf {pr : Nat × List Char} {l : List (List Char)}
    (h : pr ∈ scoredOf l) : pr.2 ∈ l := by
  unfold scoredOf at h
  rcases List.mem_filterMap.mp h with ⟨s, hs, hf⟩
  split at hf
  · simp at hf
  · cases Option.some.inj hf
    exact hs

/-- The selection loop only emits its initial accumulator or scored
sentences. -/
theorem mem_selectLoop {x : List Char} :
    ∀ (scored : List (Nat × List Char)) (bp : List (List Char))
      (used : List (List (List Char))),
      x ∈ selectLoop scored bp used → x ∈ bp ∨ ∃ sc, (sc, x) ∈ scored := by
  intro scored
  induction scored with
  | nil => intro bp used h; exact Or.inl (by simpa [selectLoop] using h)
  | cons p rest ih =>
    intro bp used h
    obtain ⟨score, sent⟩ := p
    unfold selectLoop at h
    dsimp only at h
    by_cases hadd : (!isRedundant (wordSet sent) used && decide (0 < score)) = true
    · rw [if_pos hadd, if_pos hadd] at h
      split at h
      · rcases List.mem_append.mp h with h1 | h2
        · exact Or.inl h1
        · exact Or.inr ⟨score, by simp [List.mem_singleton.mp h2]⟩
      · rcases ih _ _ h with h1 | ⟨sc, h2⟩
        · rcases List.mem_append.mp h1 with h3 | h4
          · exact Or.inl h3
          · exact Or.inr ⟨score, by simp [List.mem_singleton.mp h4]⟩
        · exact Or.inr ⟨sc, List.mem_cons_of_mem _ h2⟩
    · rw [if_neg hadd, if_neg hadd] at h
      split at h
      · exact Or.inl h
      · rcases ih _ _ h with h1 | ⟨sc, h2⟩
        · exact Or.inl h1
        · exact Or.inr ⟨sc, List.mem_cons_of_mem _ h2⟩

/-- The backfill worker only emits its accumulator or candidates. -/
theorem mem_backfillGo {x : List Char} :
    ∀ (cands bp : List (List Char)), x ∈ backfillGo cands bp → x ∈ bp ∨ x ∈ cands := by
  intro cands
  induction cands with
  | nil => intro bp h; exact Or.inl (by simpa [backfillGo] using h)
  | cons s rest ih =>
    intro bp h
    unfold backfillGo at h
    dsimp only at h
    by_cases hmem : s ∈ bp
    · rw [if_pos hmem] at h
      split at h
      · exact Or.inl h
      · rcases ih _ h with h1 | h2
        · exact Or.inl h1
        · exact Or.inr (List.mem_cons_of_mem _ h2)
    · rw [if_neg hmem] at h
      split at h
      · rcases List.mem_append.mp h with h1 | h2
        · exact Or.inl h1
        · exact Or.inr (by simp [List.mem_singleton.mp h2])
      · rcases ih _ h with h1 | h2
        · rcases List.mem_append.mp h1 with h3 | h4
          · exact Or.inl h3
          · exact Or.inr (by simp [List.mem_singleton.mp h4])
        · exact Or.inr (List.mem_cons_of_mem _ h2)

/-- The backfill stage only emits selected sentences or candidates. -/
theorem mem_backfill {x : List Char} {cands bp : List (List Char)}
    (h : x ∈ backfill cands bp) : x ∈ bp ∨ x ∈ cands := by
  unfold backfill at h
  split at h
  · exact Or.inl h
  · exact mem_backfillGo _ _ h

/-- The fallback stage only emits earlier bullets, the simplified summary,
or the placeholder. -/
theorem mem_withFallback {x : List Char} {bp : List (List Char)} {su : List Char}
    (h : x ∈ withFallback bp su) :
    x ∈ bp ∨ x = simplify_text su ∨ x = placeholderL := by
  unfold withFallback at h
  split at h
  · dsimp only at h
    split at h
    · exact Or.inr (Or.inl (by simpa using h))
    · exact Or.inr (Or.inr (by simpa using h))
  · exact Or.inl h

/-- `ensureEnd` appends at most a final period. -/
theorem ensureEnd_cases (s : List Char) : ensureEnd s = s ∨ ensureEnd s = s ++ ['.'] := by
  unfold ensureEnd
  split
  · exact Or.inl rfl
  · split
    · exact Or.inl rfl
    · exact Or.inr rfl

/-- `ensureEnd` never shortens. -/
theorem ensureEnd_length (s : List Char) : s.length ≤ (ensureEnd s).length := by
  rcases ensureEnd_cases s with h | h <;> rw [h] <;> simp

/-- `capFirst` preserves length. -/
theorem capFirst_length (s : List Char) : (capFirst s).length = s.length := by
  cases s with
  | nil => rfl
  | cons c cs =>
    show (if c.isLower = true then c.toUpper :: cs else c :: cs).length = (c :: cs).length
    split <;> simp

/-- A sentence that passed the structural rejections does not begin with a
lowercase letter after the final punctuation/capitalisation step. -/
theorem startsLower_final {s : List Char} (hne : s ≠ []) (hsb : startsBad s = false) :
    startsLower (capFirst (ensureEnd s)) = false := by
  obtain ⟨c, cs, rfl⟩ := List.exists_cons_of_ne_nil hne
  have hcl : c.isLower = false := by
    unfold startsBad at hsb
    rcases Bool.or_eq_false_iff.mp hsb with ⟨h1, _⟩
    rcases Bool.or_eq_false_iff.mp h1 with ⟨h2, _⟩
    exact h2
  have hhead : ∃ tl, ensureEnd (c :: cs) = c :: tl := by
    rcases ensureEnd_cases (c :: cs) with h | h <;> rw [h]
    · exact ⟨cs, rfl⟩
    · exact ⟨cs ++ ['.'], rfl⟩
  obtain ⟨tl, htl⟩ := hhead
  rw [htl]
  show startsLower (if c.isLower = true then c.toUpper :: tl else c :: tl) = false
  rw [if_neg (by simp [hcl])]
  simpa [startsLower] using hcl

/-- Every surviving candidate sentence is at least 60 characters long and
does not begin with a lowercase letter. -/
theorem candidate_prop {t su f s : List Char} (h : s ∈ candidateSentences t su f) :
    60 ≤ s.length ∧ startsLower s = false := by
  unfold candidateSentences at h
  dsimp only at h
  rcases List.mem_filterMap.mp h with ⟨c, _, hp⟩
  unfold processSentence at hp
  dsimp only at hp
  by_cases h1 : (cleanSentence c).length < 60
  · rw [if_pos h1] at hp; simp at hp
  · rw [if_neg h1] at hp
    by_cases h2 : startsBad (cleanSentence c) = true
    · rw [if_pos h2] at hp; simp at hp
    · rw [if_neg h2] at hp
      by_cases h3 : isHeaderLike (cleanSentence c) = true
      · rw [if_pos h3] at hp; simp at hp
      · rw [if_neg h3] at hp
        by_cases h4 : isIncomplete (cleanSentence c) = true
        · rw [if_pos h4] at hp; simp at hp
        · rw [if_neg h4] at hp
          have hs := Option.some.inj hp
          have hne : cleanSentence c ≠ [] := by
            intro hnil
            rw [hnil] at h1
            exact h1 (by simp)
          constructor
          · rw [← hs, capFirst_length]
            have := ensureEnd_length (cleanSentence c)
            omega
          · rw [← hs]
            exact startsLower_final hne (by simpa using h2)

/-- The distilled candidate list of `summaryC` is the single 66-character
sentence with the surviving bracketed aside. -/
theorem candEvalC : candidateSentences [] summaryC [] = [sentCpre] := by rfl

/-- The pre-fix bullet list on `summaryC`: the 66-character candidate is
chosen by the scored selection loop. -/
theorem preFixEvalC : bulletPointsPreFix [] summaryC [] = [sentCpre] := by
  unfold bulletPointsPreFix
  rw [candEvalC]
  rfl

/-- The final spacing pass removes the bracketed aside from the selected
candidate, shortening it to 56 characters. -/
theorem fixSentC : fix_spacing_and_grammar sentCpre = sentCpost := by rfl

/-- The final bullet list on `summaryC`: one 56-character sentence, produced
by the scored selection path. -/
theorem finalEvalC : bulletPointsFinal [] summaryC [] = [sentCpost] := by
  unfold bulletPointsFinal
  rw [preFixEvalC]
  have h3 : (([sentCpre] : List (List Char)).take 3) = [sentCpre] := rfl
  rw [h3]
  simp only [List.map_cons, List.map_nil, fixSentC]

/-- The final bullet list on the near-duplicate summary: both sentences are
unchanged by the final spacing pass. -/
theorem finalEvalAB : bulletPointsFinal [] summaryAB [] = [sentA, sentB] := by
  unfold bulletPointsFinal
  rw [preFixEvalAB]
  have h3 : (([sentA, sentB] : List (List Char)).take 3) = [sentA, sentB] := rfl
  rw [h3]
  simp only [List.map_cons, List.map_nil, fixSentA, fixSentB]

/-- Every sentence of the pre-fix bullet list either is a surviving
candidate — at least 60 characters and not lowercase-initial at selection
time — or comes from a fallback path: the simplified summary or the fixed
placeholder. -/
theorem preFix_floor (t su f s : List Char)
    (h : s ∈ bulletPointsPreFix t su f) :
    (s ∈ candidateSentences t su f ∧ 60 ≤ s.length ∧ startsLower s = false) ∨
    s = simplify_text su ∨ s = placeholderL := by
  unfold bulletPointsPreFix at h
  dsimp only at h
  rcases mem_withFallback h with h1 | h2 | h3
  · rcases mem_backfill h1 with h4 | h5
    · rcases mem_selectLoop _ _ _ h4 with h6 | ⟨sc, h7⟩
      · simp at h6
      · have hcand : s ∈ candidateSentences t su f := mem_scoredOf (mem_sortDesc h7)
        exact Or.inl ⟨hcand, candidate_prop hcand⟩
    · exact Or.inl ⟨h5, candidate_prop h5⟩
  · exact Or.inr (Or.inl h2)
  · exact Or.inr (Or.inr h3)

/-- C1 (amended): every sentence of the Distiller's output bullet list is
the final spacing-and-grammar pass applied to either a selected candidate
that was at least 60 characters long and not lowercase-initial at selection
time, or to the simplified summary, or to the fixed placeholder; the
60-character floor itself does not survive to the output, because the final
pass can shorten a selected candidate, and the fallback sentences are not
bound by it. -/
theorem c1_selection_floor (t su f s : List Char)
    (h : s ∈ bulletPointsFinal t su f) :
    ∃ s0, s = fix_spacing_and_grammar s0 ∧
      ((s0 ∈ candidateSentences t su f ∧ 60 ≤ s0.length ∧ startsLower s0 = false) ∨
       s0 = simplify_text su ∨ s0 = placeholderL) := by
  unfold bulletPointsFinal at h
  rcases List.mem_map.mp h with ⟨s0, hs0, rfl⟩
  exact ⟨s0, rfl, preFix_floor t su f s0 (List.mem_of_mem_take hs0)⟩

/-- C1 counterexample: the output floor fails on both counts. On empty
inputs the output is the fixed 58-character placeholder; and on `summaryC`
the scored selection path picks a 66-character candidate that the final
spacing pass then shortens to 56 characters, so even a selected sentence
can fall below 60 in the output. -/
theorem c1_counterexample :
    (bulletPointsFinal [] [] [] = [placeholderL] ∧ placeholderL.length = 58) ∧
    bulletPointsPreFix [] summaryC [] = [sentCpre] ∧
    sentCpre ∈ candidateSentences [] summaryC [] ∧ sentCpre.length = 66 ∧
    bulletPointsFinal [] summaryC [] = [sentCpost] ∧ sentCpost.length = 56 := by
  refine ⟨⟨by rfl, by rfl⟩, preFixEvalC, ?_, by rfl, finalEvalC, by rfl⟩
  rw [candEvalC]
  exact List.mem_cons_self _ _

/-- C1 witness: the amended claim applied to the concrete run on
`summaryAB`, whose first output bullet is the unchanged candidate `sentA`. -/
theorem c1_selection_floor_witness :
    sentA ∈ bulletPointsFinal [] summaryAB [] ∧
    ∃ s0, sentA = fix_spacing_and_grammar s0 ∧
      ((s0 ∈ candidateSentences [] summaryAB [] ∧ 60 ≤ s0.length ∧
        startsLower s0 = false) ∨
       s0 = simplify_text summaryAB ∨ s0 = placeholderL) :=
  ⟨by rw [finalEvalAB]; exact List.mem_cons_self _ _,
   c1_selection_floor [] summaryAB [] sentA
     (by rw [finalEvalAB]; exact List.mem_cons_self _ _)⟩

end SciDigest

namespace SciDigest

set_option maxRecDepth 1000000
set_option maxHeartbeats 2000000

-- ### C6

theorem foldl_max_seed (l : List Nat) (a : Nat) :
    l.foldl max a = max a (l.foldl max 0) := by
  induction l generalizing a with
  | nil => simp
  | cons x rest ih =>
    simp only [List.foldl_cons]
    rw [ih (max a x), ih (max 0 x)]
    omega

theorem maxValP_cons (q : List Char × Nat) (l : List (List Char × Nat)) :
    maxValP (q :: l) = max q.2 (maxValP l) := by
  unfold maxValP
  simp only [List.map_cons, List.foldl_cons]
  rw [foldl_max_seed]
  omega

theorem pyMaxKey_cons_eq_find :
    ∀ (l : List (List Char × Nat)) (q : List Char × Nat),
      pyMaxKey (q :: l) =
        ((q :: l).find? (fun p => decide (p.2 = maxValP (q :: l)))).map (fun p => p.1) := by
  intro l
  induction l with
  | nil =>
    intro q
    simp [pyMaxKey, maxValP, List.find?]
  | cons p rest ih =>
    intro q
    by_cases hlt : q.2 < p.2
    · have hstep : pyMaxKey (q :: p :: rest) = pyMaxKey (p :: rest) := by
        unfold pyMaxKey
        simp only [List.foldl_cons]
        rw [if_pos hlt]
      rw [hstep, ih p]
      have hM : maxValP (q :: p :: rest) = maxValP (p :: rest) := by
        simp only [maxValP_cons]
        omega
      rw [hM]
      have hple : p.2 ≤ maxValP (p :: rest) := by
        simp only [maxValP_cons]
        omega
      have hqno : ¬ ((fun r => decide (r.2 = maxValP (p :: rest))) q = true) := by
        simp only [decide_eq_true_eq]
        omega
      conv_rhs => rw [@List.find?_cons_of_neg _ (fun r => decide (r.2 = maxValP (p :: rest))) q (p :: rest) hqno]
    · have hstep : pyMaxKey (q :: p :: rest) = pyMaxKey (q :: rest) := by
        unfold pyMaxKey
        simp only [List.foldl_cons]
        rw [if_neg hlt]
      rw [hstep, ih q]
      have hM : maxValP (q :: p :: rest) = maxValP (q :: rest) := by
        simp only [maxValP_cons]
        omega
      rw [hM]
      have hqle : q.2 ≤ maxValP (q :: rest) := by
        simp only [maxValP_cons]
        omega
      by_cases hq : q.2 = maxValP (q :: rest)
      · rw [List.find?_cons_of_pos _ (by simp [hq]), List.find?_cons_of_pos _ (by simp [hq])]
      · rw [List.find?_cons_of_neg _ (by simp [hq]), List.find?_cons_of_neg _ (by simp [hq])]
        have hp : ¬ (p.2 = maxValP (q :: rest)) := by omega
        rw [List.find?_cons_of_neg _ (by simp [hp])]

theorem pyMaxKey_eq_find (l : List (List Char × Nat)) (hne : l ≠ []) :
    pyMaxKey l = (l.find? (fun p => decide (p.2 = maxValP l))).map (fun p => p.1) := by
  obtain ⟨q, rest, rfl⟩ := List.exists_cons_of_ne_nil hne
  exact pyMaxKey_cons_eq_find rest q

theorem classify_eq_spec (t su : List Char) :
    classify_domain t su = specClassify t su := by
  unfold classify_domain specClassify
  dsimp only
  have hmap : ((DOMAIN_KEYWORDS.map
      (fun p => (p.1, domainHits p.2 (toLowerL (t ++ ' ' :: su))))).map (fun p => p.2)) =
      DOMAIN_KEYWORDS.map (fun p => domainHits p.2 (toLowerL (t ++ ' ' :: su))) := by
    rw [List.map_map]
    rfl
  rw [hmap]
  set text := toLowerL (t ++ ' ' :: su) with htext
  set m : Nat := (DOMAIN_KEYWORDS.map (fun p => domainHits p.2 text)).foldl max 0 with hm
  by_cases h0 : m = 0
  · rw [if_neg (by omega), if_pos h0]
  · rw [if_pos (by omega), if_neg h0]
    have hne : DOMAIN_KEYWORDS.map (fun p => (p.1, domainHits p.2 text)) ≠ [] := by
      have : DOMAIN_KEYWORDS ≠ [] := by unfold DOMAIN_KEYWORDS; simp
      simpa using this
    rw [pyMaxKey_eq_find _ hne]
    have hMv : maxValP (DOMAIN_KEYWORDS.map (fun p => (p.1, domainHits p.2 text))) = m := by
      unfold maxValP
      rw [List.map_map]
      rfl
    rw [hMv]
    rw [List.find?_map]
    rw [Option.map_map]
    rfl

/-- C6: for every title and summary the classifier returns the topic whose
distinct-keyword hit count over the lower-cased concatenation is highest,
returns none when the maximum is zero (so on empty inputs), and breaks ties
by the first topic in table order attaining the maximum. -/
theorem c6_classifier_spec :
    (∀ t su, classify_domain t su = specClassify t su) ∧
    classify_domain [] [] = none := by
  exact ⟨classify_eq_spec, by rfl⟩

-- ### C7

-- ### C7 invariant definitions

-- ### basic facts

theorem euroTrigB_cons (c : Char) (x : List Char) :
    euroTrigB (c :: x) = if pySpace c then euroTrigB x else pyWord c := by
  unfold euroTrigB
  by_cases h : pySpace c = true
  · rw [if_pos h]
    simp [List.dropWhile_cons, h]
  · rw [if_neg h]
    simp [List.dropWhile_cons, h]

theorem euroSafeB_cons (c : Char) (x : List Char) :
    euroSafeB (c :: x) = ((if c = '€' then !euroTrigB x else true) && euroSafeB x) := rfl

theorem euroSafeB_tail {c : Char} {x : List Char} (h : euroSafeB (c :: x) = true) :
    euroSafeB x = true := by
  rw [euroSafeB_cons] at h
  exact (Bool.and_eq_true_iff.mp h).2

theorem euroSafeB_cons_nonEuro {c : Char} (hc : c ≠ '€') (x : List Char) :
    euroSafeB (c :: x) = euroSafeB x := by
  rw [euroSafeB_cons, if_neg hc]
  simp

theorem euroSafeB_append_noEuro {a : List Char} (ha : '€' ∉ a) (x : List Char) :
    euroSafeB (a ++ x) = euroSafeB x := by
  induction a with
  | nil => rfl
  | cons c rest ih =>
    have hc : c ≠ '€' := fun h => ha (h ▸ List.mem_cons_self c rest)
    rw [List.cons_append, euroSafeB_cons_nonEuro hc]
    exact ih (fun h => ha (List.mem_cons_of_mem _ h))

theorem euroSafeB_dropWhile (p : Char → Bool) {s : List Char}
    (h : euroSafeB s = true) : euroSafeB (s.dropWhile p) = true := by
  induction s with
  | nil => simpa using h
  | cons c rest ih =>
    rw [List.dropWhile_cons]
    split
    · exact ih (euroSafeB_tail h)
    · exact h

theorem noQEB_cons (a : Char) (x : List Char) :
    noQEB (a :: x) = (!(a = '\'' && euroHead x) && noQEB x) := rfl

theorem noQEB_tail {a : Char} {x : List Char} (h : noQEB (a :: x) = true) :
    noQEB x = true := by
  rw [noQEB_cons] at h
  exact (Bool.and_eq_true_iff.mp h).2

theorem euroHead_append_ne {a : List Char} (hne : a ≠ []) (y : List Char) :
    euroHead (a ++ y) = euroHead a := by
  obtain ⟨c, rest, rfl⟩ := List.exists_cons_of_ne_nil hne
  rfl

theorem noQEB_append {a y : List Char} (ha : noQEB a = true) (hy : noQEB y = true)
    (hb : a.getLast? = some '\'' → euroHead y = false) : noQEB (a ++ y) = true := by
  induction a with
  | nil => simpa using hy
  | cons c rest ih =>
    rw [List.cons_append, noQEB_cons]
    cases rest with
    | nil =>
      simp only [List.nil_append]
      have hb' : c = '\'' → euroHead y = false := by
        intro hc
        exact hb (by simp [hc])
      by_cases hc : c = '\''
      · simp [hc, hb' hc, hy]
      · simp [hc, hy]
    | cons b brest =>
      have ihres : noQEB (b :: (brest ++ y)) = true := by
        have h2 := ih (noQEB_tail ha) (by
          intro hl
          exact hb (by rw [List.getLast?_cons_cons]; exact hl))
        simpa using h2
      have hpair : (!(c = '\'' && (b = '€'))) = true := by
        have h1 := (Bool.and_eq_true_iff.mp ha).1
        simpa [noQEB_cons, euroHead] using h1
      simp only [List.cons_append, euroHead, ihres, Bool.and_true]
      exact hpair

theorem amp39_eq : amp39 = ['&', '#', '3', '9', ';'] := rfl

theorem quotEnt_eq : quotEnt = ['&', 'q', 'u', 'o', 't', ';'] := rfl

theorem euroSafeB_amp39_append (x : List Char) :
    euroSafeB (amp39 ++ x) = euroSafeB x :=
  euroSafeB_append_noEuro (by rw [amp39_eq]; decide) x

theorem euroHead_cons (c : Char) (x : List Char) :
    euroHead (c :: x) = decide (c = '€') := rfl

theorem euroTrigB_eq_nil {s : List Char} (h : s.dropWhile pySpace = []) :
    euroTrigB s = false := by
  unfold euroTrigB
  rw [h]

theorem euroTrigB_eq_cons {s : List Char} {d : Char} {r : List Char}
    (h : s.dropWhile pySpace = d :: r) : euroTrigB s = pyWord d := by
  unfold euroTrigB
  rw [h]

theorem len_dropWhile_le (p : Char → Bool) :
    ∀ l : List Char, (l.dropWhile p).length ≤ l.length := by
  intro l
  induction l with
  | nil => simp
  | cons c cs ih =>
    rw [List.dropWhile_cons]
    split
    · calc (cs.dropWhile p).length ≤ cs.length := ih
        _ ≤ (c :: cs).length := by simp
    · exact le_refl _

theorem euroTrigB_amp39 (z : List Char) : euroTrigB (amp39 ++ z) = false := by
  rw [amp39_eq, List.cons_append, euroTrigB_cons, if_neg (by decide)]
  decide

theorem euroHead_amp39 (z : List Char) : euroHead (amp39 ++ z) = false := by
  rw [amp39_eq]
  rfl

/-- After `subEuroLA` no Euro sign is trigger-followed, and the pass cannot
create a whitespace-then-word-character opening that was not already there. -/
theorem subEuroLAF_establish :
    ∀ (f : Nat) (s : List Char), s.length ≤ f →
      euroSafeB (subEuroLAF f s) = true ∧
      (euroTrigB (subEuroLAF f s) = true → euroTrigB s = true) := by
  intro f
  induction f with
  | zero =>
    intro s hs
    have hnil : s = [] := List.eq_nil_of_length_eq_zero (by omega)
    subst hnil
    exact ⟨rfl, fun h => h⟩
  | succ f ih =>
    intro s hs
    cases s with
    | nil => exact ⟨rfl, fun h => h⟩
    | cons c cs =>
      have hlen : cs.length ≤ f := by simpa using hs
      by_cases hc : c = '€'
      · subst hc
        unfold subEuroLAF
        rw [if_pos rfl]
        cases hdw : cs.dropWhile pySpace with
        | nil =>
          dsimp only
          have ihcs := ih cs hlen
          have htrig : euroTrigB (subEuroLAF f cs) = false := by
            by_contra hcon
            have h1 : euroTrigB (subEuroLAF f cs) = true := by simpa using hcon
            have h2 := ihcs.2 h1
            rw [euroTrigB_eq_nil hdw] at h2
            exact absurd h2 (by decide)
          refine ⟨?_, ?_⟩
          · rw [euroSafeB_cons, if_pos rfl, htrig]
            simpa using ihcs.1
          · intro h
            rw [euroTrigB_cons, if_neg (by decide)] at h
            exact absurd h (by decide)
        | cons d rest' =>
          dsimp only
          by_cases hd : pyWord d = true
          · rw [if_pos hd]
            have hlen2 : (d :: rest').length ≤ f := by
              have hw := len_dropWhile_le pySpace cs
              rw [hdw] at hw
              exact le_trans hw hlen
            have ihd := ih (d :: rest') hlen2
            refine ⟨?_, ?_⟩
            · rw [euroSafeB_amp39_append]
              exact ihd.1
            · intro h
              rw [euroTrigB_amp39] at h
              exact absurd h (by decide)
          · rw [if_neg hd]
            have ihcs := ih cs hlen
            have htrig : euroTrigB (subEuroLAF f cs) = false := by
              by_contra hcon
              have h1 : euroTrigB (subEuroLAF f cs) = true := by simpa using hcon
              have h2 := ihcs.2 h1
              rw [euroTrigB_eq_cons hdw] at h2
              exact hd h2
            refine ⟨?_, ?_⟩
            · rw [euroSafeB_cons, if_pos rfl, htrig]
              simpa using ihcs.1
            · intro h
              rw [euroTrigB_cons, if_neg (by decide)] at h
              exact absurd h (by decide)
      · unfold subEuroLAF
        rw [if_neg hc]
        have ihcs := ih cs hlen
        refine ⟨?_, ?_⟩
        · rw [euroSafeB_cons_nonEuro hc]
          exact ihcs.1
        · intro h
          rw [euroTrigB_cons] at h ⊢
          by_cases hsp : pySpace c = true
          · rw [if_pos hsp] at h ⊢
            exact ihcs.2 h
          · rw [if_neg hsp] at h ⊢
            exact h

/-- On a Euro-safe text `subEuroLA` changes nothing. -/
theorem subEuroLAF_id :
    ∀ (f : Nat) (s : List Char), euroSafeB s = true → subEuroLAF f s = s := by
  intro f
  induction f with
  | zero => intro s _; rfl
  | succ f ih =>
    intro s hsafe
    cases s with
    | nil => rfl
    | cons c cs =>
      have hscs := euroSafeB_tail hsafe
      by_cases hc : c = '€'
      · subst hc
        unfold subEuroLAF
        rw [if_pos rfl]
        have htrig : euroTrigB cs = false := by
          have h0 := hsafe
          rw [euroSafeB_cons, if_pos rfl] at h0
          simpa using (Bool.and_eq_true_iff.mp h0).1
        cases hdw : cs.dropWhile pySpace with
        | nil =>
          dsimp only
          rw [ih cs hscs]
        | cons d rest' =>
          dsimp only
          have hd : pyWord d = false := by
            rw [euroTrigB_eq_cons hdw] at htrig
            exact htrig
          rw [if_neg (by simp [hd])]
          rw [ih cs hscs]
      · unfold subEuroLAF
        rw [if_neg hc]
        rw [ih cs hscs]

/-- After `subQuoteEuro` no apostrophe is immediately followed by a Euro
sign, and the pass cannot put a Euro sign at the front that was not there. -/
theorem subQuoteEuroF_establish :
    ∀ (f : Nat) (s : List Char), s.length ≤ f →
      noQEB (subQuoteEuroF f s) = true ∧
      (euroHead (subQuoteEuroF f s) = true → euroHead s = true) := by
  intro f
  induction f with
  | zero =>
    intro s hs
    have hnil : s = [] := List.eq_nil_of_length_eq_zero (by omega)
    subst hnil
    exact ⟨rfl, fun h => h⟩
  | succ f ih =>
    intro s hs
    cases s with
    | nil => exact ⟨rfl, fun h => h⟩
    | cons c cs =>
      have hlen : cs.length ≤ f := by simpa using hs
      by_cases hc : c = '\''
      · subst hc
        unfold subQuoteEuroF
        rw [if_pos rfl]
        cases cs with
        | nil =>
          dsimp only
          have ihn := ih [] (by simp)
          refine ⟨?_, ?_⟩
          · rw [noQEB_cons]
            have hh : euroHead (subQuoteEuroF f []) = false := by
              by_contra hcon
              have h1 : euroHead (subQuoteEuroF f []) = true := by simpa using hcon
              exact absurd (ihn.2 h1) (by decide)
            simp [hh, ihn.1]
          · intro h
            rw [euroHead_cons] at h
            exact absurd h (by decide)
        | cons d rest =>
          dsimp only
          by_cases hd : d = '€'
          · rw [if_pos hd]
            have hlen2 : (rest.dropWhile pySpace).length ≤ f := by
              have hw := len_dropWhile_le pySpace rest
              have hr : rest.length ≤ f := by
                simp only [List.length_cons] at hlen
                omega
              exact le_trans hw hr
            have ihr := ih (rest.dropWhile pySpace) hlen2
            refine ⟨?_, ?_⟩
            · refine noQEB_append (by decide) ihr.1 ?_
              intro hlast
              rw [amp39_eq] at hlast
              exact absurd hlast (by decide)
            · intro h
              rw [euroHead_amp39] at h
              exact absurd h (by decide)
          · rw [if_neg hd]
            have ihcs := ih (d :: rest) hlen
            refine ⟨?_, ?_⟩
            · rw [noQEB_cons]
              have hh : euroHead (subQuoteEuroF f (d :: rest)) = false := by
                by_contra hcon
                have h1 : euroHead (subQuoteEuroF f (d :: rest)) = true := by
                  simpa using hcon
                have h2 := ihcs.2 h1
                rw [euroHead_cons] at h2
                exact hd (by simpa using h2)
              simp [hh, ihcs.1]
            · intro h
              rw [euroHead_cons] at h
              exact absurd h (by decide)
      · unfold subQuoteEuroF
        rw [if_neg hc]
        have ihcs := ih cs hlen
        refine ⟨?_, ?_⟩
        · rw [noQEB_cons]
          simp [hc, ihcs.1]
        · intro h
          rw [euroHead_cons] at h ⊢
          exact h

/-- `subQuoteEuro` keeps a Euro-safe text Euro-safe. -/
theorem subQuoteEuroF_keepSafe :
    ∀ (f : Nat) (s : List Char), euroSafeB s = true →
      euroSafeB (subQuoteEuroF f s) = true ∧
      (euroTrigB (subQuoteEuroF f s) = true → euroTrigB s = true) := by
  intro f
  induction f with
  | zero => intro s hsafe; exact ⟨hsafe, fun h => h⟩
  | succ f ih =>
    intro s hsafe
    cases s with
    | nil => exact ⟨rfl, fun h => h⟩
    | cons c cs =>
      have hscs := euroSafeB_tail hsafe
      by_cases hc : c = '\''
      · subst hc
        unfold subQuoteEuroF
        rw [if_pos rfl]
        cases cs with
        | nil =>
          dsimp only
          have ihn := ih [] rfl
          refine ⟨?_, ?_⟩
          · rw [euroSafeB_cons_nonEuro (by decide)]
            exact ihn.1
          · intro h
            rw [euroTrigB_cons, if_neg (by decide)] at h
            exact absurd h (by decide)
        | cons d rest =>
          dsimp only
          by_cases hd : d = '€'
          · rw [if_pos hd]
            have hsr : euroSafeB (rest.dropWhile pySpace) = true :=
              euroSafeB_dropWhile pySpace (euroSafeB_tail hscs)
            have ihr := ih (rest.dropWhile pySpace) hsr
            refine ⟨?_, ?_⟩
            · rw [euroSafeB_amp39_append]
              exact ihr.1
            · intro h
              rw [euroTrigB_amp39] at h
              exact absurd h (by decide)
          · rw [if_neg hd]
            have ihcs := ih (d :: rest) hscs
            refine ⟨?_, ?_⟩
            · rw [euroSafeB_cons_nonEuro (by decide)]
              exact ihcs.1
            · intro h
              rw [euroTrigB_cons, if_neg (by decide)] at h
              exact absurd h (by decide)
      · unfold subQuoteEuroF
        rw [if_neg hc]
        have ihcs := ih cs hscs
        refine ⟨?_, ?_⟩
        · rw [euroSafeB_cons]
          by_cases he : c = '€'
          · rw [if_pos he]
            have htrigcs : euroTrigB cs = false := by
              have h0 := hsafe
              rw [euroSafeB_cons, if_pos he] at h0
              simpa using (Bool.and_eq_true_iff.mp h0).1
            have htout : euroTrigB (subQuoteEuroF f cs) = false := by
              by_contra hcon
              have h1 : euroTrigB (subQuoteEuroF f cs) = true := by simpa using hcon
              have h2 := ihcs.2 h1
              rw [h2] at htrigcs
              exact absurd htrigcs (by decide)
            simp [htout, ihcs.1]
          · rw [if_neg he]
            simpa using ihcs.1
        · intro h
          rw [euroTrigB_cons] at h ⊢
          by_cases hsp : pySpace c = true
          · rw [if_pos hsp] at h ⊢
            exact ihcs.2 h
          · rw [if_neg hsp] at h ⊢
            exact h

/-- On a text with no apostrophe-Euro pair `subQuoteEuro` changes nothing. -/
theorem subQuoteEuroF_id :
    ∀ (f : Nat) (s : List Char), noQEB s = true → subQuoteEuroF f s = s := by
  intro f
  induction f with
  | zero => intro s _; rfl
  | succ f ih =>
    intro s hq
    cases s with
    | nil => rfl
    | cons c cs =>
      have hqcs := noQEB_tail hq
      by_cases hc : c = '\''
      · subst hc
        unfold subQuoteEuroF
        rw [if_pos rfl]
        cases cs with
        | nil =>
          dsimp only
          rw [ih [] rfl]
        | cons d rest =>
          dsimp only
          have hd : ¬(d = '€') := by
            intro hde
            have h0 := hq
            rw [noQEB_cons, euroHead_cons] at h0
            have h1 := (Bool.and_eq_true_iff.mp h0).1
            rw [hde] at h1
            simp at h1
          rw [if_neg hd]
          rw [ih (d :: rest) hqcs]
      · unfold subQuoteEuroF
        rw [if_neg hc]
        rw [ih cs hqcs]

theorem replaceClassF_cons (f : Nat) (t : Char → Bool) (rep : List Char)
    (c : Char) (cs : List Char) :
    replaceClassF (f + 1) t rep (c :: cs) =
      if t c then rep ++ replaceClassF f t rep cs
      else c :: replaceClassF f t rep cs := rfl

/-- Python `str.replace` with a one-character pattern is a character-class
substitution. -/
theorem replaceStrF_single (p : Char) (rep : List Char) :
    ∀ (f : Nat) (s : List Char),
      replaceStrF f [p] rep s = replaceClassF f (fun c => decide (p = c)) rep s := by
  intro f
  induction f with
  | zero => intro s; rfl
  | succ f ih =>
    intro s
    cases s with
    | nil => rfl
    | cons c cs =>
      show (if hasPfx [p] (c :: cs) then
              rep ++ replaceStrF f [p] rep (List.drop (List.length [p]) (c :: cs))
            else c :: replaceStrF f [p] rep cs) = _
      rw [replaceClassF_cons]
      have hpfx : hasPfx [p] (c :: cs) = decide (p = c) := by
        show (decide (p = c) && hasPfx [] cs) = decide (p = c)
        simp [hasPfx]
      rw [hpfx]
      by_cases hp : p = c
      · rw [if_pos (by simpa using hp), if_pos (by simpa using hp)]
        rw [show List.drop (List.length [p]) (c :: cs) = cs from rfl]
        rw [ih cs]
      · rw [if_neg (by simpa using hp), if_neg (by simpa using hp)]
        rw [ih cs]

theorem mem_replaceClassF (t : Char → Bool) (rep : List Char) :
    ∀ (f : Nat) (s : List Char) (c : Char),
      c ∈ replaceClassF f t rep s → c ∈ rep ∨ c ∈ s := by
  intro f
  induction f with
  | zero => intro s c h; exact Or.inr h
  | succ f ih =>
    intro s c h
    cases s with
    | nil => exact absurd h (List.not_mem_nil c)
    | cons a as =>
      rw [replaceClassF_cons] at h
      by_cases ht : t a = true
      · rw [if_pos ht] at h
        rcases List.mem_append.mp h with h1 | h2
        · exact Or.inl h1
        · rcases ih as c h2 with h3 | h4
          · exact Or.inl h3
          · exact Or.inr (List.mem_cons_of_mem a h4)
      · rw [if_neg ht] at h
        rcases List.mem_cons.mp h with h1 | h2
        · exact Or.inr (List.mem_cons.mpr (Or.inl h1))
        · rcases ih as c h2 with h3 | h4
          · exact Or.inl h3
          · exact Or.inr (List.mem_cons_of_mem a h4)

theorem replaceClassF_elim (t : Char → Bool) (rep : List Char)
    (hrep : ∀ c ∈ rep, t c = false) :
    ∀ (f : Nat) (s : List Char), s.length ≤ f →
      ∀ c ∈ replaceClassF f t rep s, t c = false := by
  intro f
  induction f with
  | zero =>
    intro s hs c hc
    have hnil : s = [] := List.eq_nil_of_length_eq_zero (by omega)
    subst hnil
    exact absurd hc (List.not_mem_nil c)
  | succ f ih =>
    intro s hs c hc
    cases s with
    | nil => exact absurd hc (List.not_mem_nil c)
    | cons a as =>
      have hlen : as.length ≤ f := by simpa using hs
      rw [replaceClassF_cons] at hc
      by_cases ht : t a = true
      · rw [if_pos ht] at hc
        rcases List.mem_append.mp hc with h1 | h2
        · exact hrep c h1
        · exact ih as hlen c h2
      · rw [if_neg ht] at hc
        rcases List.mem_cons.mp hc with h1 | h2
        · subst h1
          simpa using ht
        · exact ih as hlen c h2

theorem replaceClassF_id (t : Char → Bool) (rep : List Char) :
    ∀ (f : Nat) (s : List Char), (∀ c ∈ s, t c = false) →
      replaceClassF f t rep s = s := by
  intro f
  induction f with
  | zero => intro s _; rfl
  | succ f ih =>
    intro s hs
    cases s with
    | nil => rfl
    | cons a as =>
      rw [replaceClassF_cons]
      rw [if_neg (by simp [hs a (List.mem_cons_self a as)])]
      rw [ih as (fun c hc => hs c (List.mem_cons_of_mem a hc))]

theorem euroTrigB_append_spaces {a : List Char}
    (ha : ∀ c ∈ a, pySpace c = true) (y : List Char) :
    euroTrigB (a ++ y) = euroTrigB y := by
  induction a with
  | nil => rfl
  | cons c cr ih =>
    rw [List.cons_append, euroTrigB_cons, if_pos (ha c (List.mem_cons_self c cr))]
    exact ih (fun x hx => ha x (List.mem_cons_of_mem c hx))

/-- Replacing characters by a text headed by a non-space non-word character
keeps a Euro-safe text Euro-safe. -/
theorem euroSafeB_replaceClassF_block (t : Char → Bool) (r : Char) (rr : List Char)
    (hhd : pySpace r = false ∧ pyWord r = false)
    (heu : '€' ∉ r :: rr) :
    ∀ (f : Nat) (s : List Char), euroSafeB s = true →
      euroSafeB (replaceClassF f t (r :: rr) s) = true ∧
      (euroTrigB (replaceClassF f t (r :: rr) s) = true → euroTrigB s = true) := by
  have hr : r ≠ '€' := by
    intro hh
    subst hh
    exact heu (List.mem_cons_self _ _)
  have hrr : '€' ∉ rr := fun hh => heu (List.mem_cons_of_mem r hh)
  intro f
  induction f with
  | zero => intro s hs; exact ⟨hs, fun h => h⟩
  | succ f ih =>
    intro s hs
    cases s with
    | nil => exact ⟨rfl, fun h => h⟩
    | cons a as =>
      have hsas := euroSafeB_tail hs
      have ihas := ih as hsas
      rw [replaceClassF_cons]
      by_cases ht : t a = true
      · rw [if_pos ht]
        refine ⟨?_, ?_⟩
        · rw [List.cons_append, euroSafeB_cons_nonEuro hr,
            euroSafeB_append_noEuro hrr]
          exact ihas.1
        · intro h
          rw [List.cons_append, euroTrigB_cons, if_neg (by simp [hhd.1])] at h
          rw [hhd.2] at h
          exact absurd h (by decide)
      · rw [if_neg ht]
        refine ⟨?_, ?_⟩
        · rw [euroSafeB_cons]
          by_cases he : a = '€'
          · rw [if_pos he]
            have htas : euroTrigB as = false := by
              have h0 := hs
              rw [euroSafeB_cons, if_pos he] at h0
              simpa using (Bool.and_eq_true_iff.mp h0).1
            have htout : euroTrigB (replaceClassF f t (r :: rr) as) = false := by
              by_contra hcon
              have h1 : euroTrigB (replaceClassF f t (r :: rr) as) = true := by
                simpa using hcon
              have h2 := ihas.2 h1
              rw [h2] at htas
              exact absurd htas (by decide)
            simp [htout, ihas.1]
          · rw [if_neg he]
            simpa using ihas.1
        · intro h
          rw [euroTrigB_cons] at h ⊢
          by_cases hsp : pySpace a = true
          · rw [if_pos hsp] at h ⊢
            exact ihas.2 h
          · rw [if_neg hsp] at h ⊢
            exact h

/-- Replacing whitespace characters by whitespace keeps a Euro-safe text
Euro-safe. -/
theorem euroSafeB_replaceClassF_space (t : Char → Bool) (rep : List Char)
    (hcls : ∀ c, t c = true → pySpace c = true)
    (hrep : ∀ c ∈ rep, pySpace c = true) :
    ∀ (f : Nat) (s : List Char), euroSafeB s = true →
      euroSafeB (replaceClassF f t rep s) = true ∧
      (euroTrigB (replaceClassF f t rep s) = true → euroTrigB s = true) := by
  have heu : '€' ∉ rep := fun hh => absurd (hrep '€' hh) (by decide)
  intro f
  induction f with
  | zero => intro s hs; exact ⟨hs, fun h => h⟩
  | succ f ih =>
    intro s hs
    cases s with
    | nil => exact ⟨rfl, fun h => h⟩
    | cons a as =>
      have hsas := euroSafeB_tail hs
      have ihas := ih as hsas
      rw [replaceClassF_cons]
      by_cases ht : t a = true
      · rw [if_pos ht]
        have hanos : a ≠ '€' := by
          intro hh
          subst hh
          exact absurd (hcls '€' ht) (by decide)
        refine ⟨?_, ?_⟩
        · rw [euroSafeB_append_noEuro heu]
          exact ihas.1
        · intro h
          rw [euroTrigB_append_spaces hrep] at h
          rw [euroTrigB_cons, if_pos (hcls a ht)]
          exact ihas.2 h
      · rw [if_neg ht]
        refine ⟨?_, ?_⟩
        · rw [euroSafeB_cons]
          by_cases he : a = '€'
          · rw [if_pos he]
            have htas : euroTrigB as = false := by
              have h0 := hs
              rw [euroSafeB_cons, if_pos he] at h0
              simpa using (Bool.and_eq_true_iff.mp h0).1
            have htout : euroTrigB (replaceClassF f t rep as) = false := by
              by_contra hcon
              have h1 : euroTrigB (replaceClassF f t rep as) = true := by
                simpa using hcon
              have h2 := ihas.2 h1
              rw [h2] at htas
              exact absurd htas (by decide)
            simp [htout, ihas.1]
          · rw [if_neg he]
            simpa using ihas.1
        · intro h
          rw [euroTrigB_cons] at h ⊢
          by_cases hsp : pySpace a = true
          · rw [if_pos hsp] at h ⊢
            exact ihas.2 h
          · rw [if_neg hsp] at h ⊢
            exact h

/-- A class substitution whose replacement has no Euro sign, no internal
apostrophe-Euro pair and no trailing apostrophe keeps the no-pair invariant. -/
theorem noQEB_replaceClassF (t : Char → Bool) (r : Char) (rr : List Char)
    (hq : noQEB (r :: rr) = true)
    (heu : '€' ∉ r :: rr)
    (hl : (r :: rr).getLast? ≠ some '\'') :
    ∀ (f : Nat) (s : List Char), noQEB s = true →
      noQEB (replaceClassF f t (r :: rr) s) = true ∧
      (euroHead (replaceClassF f t (r :: rr) s) = true → euroHead s = true) := by
  have hr : r ≠ '€' := by
    intro hh
    subst hh
    exact heu (List.mem_cons_self _ _)
  intro f
  induction f with
  | zero => intro s hqs; exact ⟨hqs, fun h => h⟩
  | succ f ih =>
    intro s hqs
    cases s with
    | nil => exact ⟨rfl, fun h => h⟩
    | cons a as =>
      have hqas := noQEB_tail hqs
      have ihas := ih as hqas
      rw [replaceClassF_cons]
      by_cases ht : t a = true
      · rw [if_pos ht]
        refine ⟨?_, ?_⟩
        · exact noQEB_append hq ihas.1 (fun hlast => absurd hlast hl)
        · intro h
          rw [euroHead_append_ne (by simp) _] at h
          rw [euroHead_cons] at h
          exact absurd (by simpa using h) hr
      · rw [if_neg ht]
        refine ⟨?_, ?_⟩
        · rw [noQEB_cons]
          by_cases ha : a = '\''
          · have hhas : euroHead as = false := by
              have h0 := hqs
              rw [noQEB_cons] at h0
              have h1 := (Bool.and_eq_true_iff.mp h0).1
              simpa [ha] using h1
            have hout : euroHead (replaceClassF f t (r :: rr) as) = false := by
              by_contra hcon
              have h1 : euroHead (replaceClassF f t (r :: rr) as) = true := by
                simpa using hcon
              have h2 := ihas.2 h1
              rw [h2] at hhas
              exact absurd hhas (by decide)
            simp [hout, ihas.1]
          · simp [ha, ihas.1]
        · intro h
          rw [euroHead_cons] at h ⊢
          exact h

theorem hasPfx_mem : ∀ (pat s : List Char), hasPfx pat s = true →
    ∀ x ∈ pat, x ∈ s := by
  intro pat
  induction pat with
  | nil =>
    intro s _ x hx
    exact absurd hx (List.not_mem_nil x)
  | cons p ps ih =>
    intro s h x hx
    cases s with
    | nil => simp [hasPfx] at h
    | cons c cs =>
      have hh : (decide (p = c) && hasPfx ps cs) = true := h
      obtain ⟨h1, h2⟩ := Bool.and_eq_true_iff.mp hh
      rcases List.mem_cons.mp hx with hx1 | hx2
      · subst hx1
        have hpc : x = c := of_decide_eq_true h1
        rw [hpc]
        exact List.mem_cons_self c cs
      · exact List.mem_cons_of_mem c (ih cs h2 x hx2)

theorem replaceStrF_cons_eq (f : Nat) (p : Char) (ps rep : List Char)
    (c : Char) (cs : List Char) :
    replaceStrF (f + 1) (p :: ps) rep (c :: cs) =
      if hasPfx (p :: ps) (c :: cs) then
        rep ++ replaceStrF f (p :: ps) rep (List.drop (List.length (p :: ps)) (c :: cs))
      else c :: replaceStrF f (p :: ps) rep cs := rfl

/-- A replacement whose pattern holds a character absent from the text
changes nothing. -/
theorem replaceStrF_id_of_absent (x : Char) (pat rep : List Char)
    (hx : x ∈ pat) :
    ∀ (f : Nat) (s : List Char), x ∉ s → replaceStrF f pat rep s = s := by
  intro f
  induction f with
  | zero =>
    intro s _
    cases pat with
    | nil => rfl
    | cons p ps => rfl
  | succ f ih =>
    intro s hxs
    cases pat with
    | nil => rfl
    | cons p ps =>
      cases s with
      | nil => rfl
      | cons c cs =>
        have hpfx : ¬(hasPfx (p :: ps) (c :: cs) = true) := by
          intro h1
          exact hxs (hasPfx_mem (p :: ps) (c :: cs) h1 x hx)
        rw [replaceStrF_cons_eq, if_neg hpfx]
        rw [ih cs (fun hc => hxs (List.mem_cons_of_mem c hc))]

theorem not_mem_pyReplace_single (x p : Char) (r s : List Char)
    (hxr : x ∉ r) (hxs : x ∉ s) : x ∉ pyReplace s [p] r := by
  intro hmem
  unfold pyReplace at hmem
  rw [replaceStrF_single] at hmem
  rcases mem_replaceClassF _ r s.length s x hmem with h | h
  · exact hxr h
  · exact hxs h

theorem pyReplace_single_elim (x : Char) (r s : List Char) (hxr : x ∉ r) :
    x ∉ pyReplace s [x] r := by
  intro hmem
  unfold pyReplace at hmem
  rw [replaceStrF_single] at hmem
  have h2 := replaceClassF_elim (fun c => decide (x = c)) r
    (fun c hc => by
      simp only [decide_eq_false_iff_not]
      intro he
      subst he
      exact hxr hc)
    s.length s (le_refl _) x hmem
  simp at h2

theorem pyReplace_single_keepInv (p : Char) (r : List Char) (hok : entryOK p r) :
    ∀ (s : List Char), euroSafeB s = true → noQEB s = true →
      euroSafeB (pyReplace s [p] r) = true ∧ noQEB (pyReplace s [p] r) = true := by
  intro s hse hsq
  obtain ⟨hq, heu, hl, hne, hd⟩ := hok
  obtain ⟨c, rr, rfl⟩ := List.exists_cons_of_ne_nil hne
  unfold pyReplace
  rw [replaceStrF_single]
  refine ⟨?_, ?_⟩
  · rcases hd with hblock | hspace
    · exact (euroSafeB_replaceClassF_block (fun y => decide (p = y)) c rr
        (hblock c (by simp)) heu s.length s hse).1
    · refine (euroSafeB_replaceClassF_space (fun y => decide (p = y)) (c :: rr)
        ?_ hspace.2 s.length s hse).1
      intro y hy
      have hpy : p = y := of_decide_eq_true hy
      rw [← hpy]
      exact hspace.1
  · exact (noQEB_replaceClassF (fun y => decide (p = y)) c rr hq heu hl
      s.length s hsq).1

theorem foldMap_keepInv :
    ∀ (l : List (Char × List Char)) (s : List Char),
      (∀ e ∈ l, entryOK e.1 e.2) →
      euroSafeB s = true → noQEB s = true →
      euroSafeB (l.foldl (fun t p => pyReplace t [p.1] p.2) s) = true ∧
      noQEB (l.foldl (fun t p => pyReplace t [p.1] p.2) s) = true := by
  intro l
  induction l with
  | nil => intro s _ hse hsq; exact ⟨hse, hsq⟩
  | cons e rest ih =>
    intro s hok hse hsq
    simp only [List.foldl_cons]
    have h1 := pyReplace_single_keepInv e.1 e.2 (hok e (List.mem_cons_self e rest)) s hse hsq
    exact ih (pyReplace s [e.1] e.2) (fun x hx => hok x (List.mem_cons_of_mem e hx)) h1.1 h1.2

theorem fold_not_mem_aux (x : Char) :
    ∀ (l : List (Char × List Char)) (s : List Char),
      (∀ e ∈ l, x ∉ e.2) → x ∉ s →
      x ∉ l.foldl (fun t p => pyReplace t [p.1] p.2) s := by
  intro l
  induction l with
  | nil => intro s _ hxs; simpa using hxs
  | cons e rest ih =>
    intro s hrep hxs
    simp only [List.foldl_cons]
    exact ih (pyReplace s [e.1] e.2) (fun q hq => hrep q (List.mem_cons_of_mem e hq))
      (not_mem_pyReplace_single x e.1 e.2 s (hrep e (List.mem_cons_self e rest)) hxs)

/-- A character that appears as a table key, and in no table replacement, is
absent after the table fold. -/
theorem fold_elim_char (x : Char) :
    ∀ (l : List (Char × List Char)) (s : List Char),
      (∃ e ∈ l, e.1 = x) → (∀ e ∈ l, x ∉ e.2) →
      x ∉ l.foldl (fun t p => pyReplace t [p.1] p.2) s := by
  intro l
  induction l with
  | nil =>
    intro s hex _
    obtain ⟨e, he, _⟩ := hex
    exact absurd he (List.not_mem_nil e)
  | cons e rest ih =>
    intro s hex hrep
    simp only [List.foldl_cons]
    by_cases he1 : e.1 = x
    · subst he1
      exact fold_not_mem_aux e.1 rest (pyReplace s [e.1] e.2)
        (fun q hq => hrep q (List.mem_cons_of_mem e hq))
        (pyReplace_single_elim e.1 e.2 s (hrep e (List.mem_cons_self e rest)))
    · have hex2 : ∃ q ∈ rest, q.1 = x := by
        rcases hex with ⟨q, hq, hq1⟩
        rcases List.mem_cons.mp hq with h1 | h2
        · exact absurd (h1 ▸ hq1) he1
        · exact ⟨q, h2, hq1⟩
      exact ih (pyReplace s [e.1] e.2) hex2 (fun q hq => hrep q (List.mem_cons_of_mem e hq))

theorem foldMap_id :
    ∀ (l : List (Char × List Char)) (s : List Char),
      (∀ e ∈ l, e.1 ∉ s) →
      l.foldl (fun t p => pyReplace t [p.1] p.2) s = s := by
  intro l
  induction l with
  | nil => intro s _; rfl
  | cons e rest ih =>
    intro s h
    simp only [List.foldl_cons]
    have hid : pyReplace s [e.1] e.2 = s := by
      unfold pyReplace
      rw [replaceStrF_single]
      refine replaceClassF_id _ _ s.length s ?_
      intro c hc
      simp only [decide_eq_false_iff_not]
      intro hec
      exact h e (List.mem_cons_self e rest) (by rw [hec]; exact hc)
    rw [hid]
    exact ih s (fun q hq => h q (List.mem_cons_of_mem e hq))

theorem foldMoj_id :
    ∀ (l : List (List Char × List Char)) (s : List Char),
      (∀ e ∈ l, ∃ x, x ∈ e.1 ∧ x ∉ s) →
      l.foldl (fun t p => pyReplace t p.1 p.2) s = s := by
  intro l
  induction l with
  | nil => intro s _; rfl
  | cons e rest ih =>
    intro s h
    simp only [List.foldl_cons]
    obtain ⟨x, hx1, hx2⟩ := h e (List.mem_cons_self e rest)
    rw [show pyReplace s e.1 e.2 = s from
      replaceStrF_id_of_absent x e.1 e.2 hx1 s.length s hx2]
    exact ih s (fun q hq => h q (List.mem_cons_of_mem e hq))

theorem normalize_eq (t : List Char) :
    normalize_characters t =
      if t = [] then t
      else tailPipe (subAdot (subA80dot
        (mojibake_patterns.foldl (fun a p => pyReplace a p.1 p.2) t))) := rfl

theorem normalize_nil : normalize_characters [] = [] := rfl

theorem subA80dotF_id :
    ∀ (f : Nat) (s : List Char), 'â' ∉ s → subA80dotF f s = s := by
  intro f
  induction f with
  | zero => intro s _; rfl
  | succ f ih =>
    intro s hs
    cases s with
    | nil => rfl
    | cons c cs =>
      have hc : ¬(c = 'â') := fun hh => hs (by rw [hh]; exact List.mem_cons_self _ _)
      unfold subA80dotF
      rw [if_neg hc]
      rw [ih cs (fun hm => hs (List.mem_cons_of_mem c hm))]

theorem subAdotF_id :
    ∀ (f : Nat) (s : List Char), 'â' ∉ s → subAdotF f s = s := by
  intro f
  induction f with
  | zero => intro s _; rfl
  | succ f ih =>
    intro s hs
    cases s with
    | nil => rfl
    | cons c cs =>
      have hc : ¬(c = 'â') := fun hh => hs (by rw [hh]; exact List.mem_cons_self _ _)
      unfold subAdotF
      rw [if_neg hc]
      rw [ih cs (fun hm => hs (List.mem_cons_of_mem c hm))]

theorem unicode_map_entryOK : ∀ e ∈ unicode_map, entryOK e.1 e.2 := by decide

theorem mapChars_facts :
    ∀ x ∈ unicode_map.map Prod.fst,
      (∀ e ∈ unicode_map, x ∉ e.2) ∧ x ∉ amp39 ∧ x ∉ quotEnt := by decide

theorem mem_replaceClass (t : Char → Bool) (rep s : List Char) (c : Char)
    (h : c ∈ replaceClass t rep s) : c ∈ rep ∨ c ∈ s :=
  mem_replaceClassF t rep s.length s c h

theorem replaceClass_elim (t : Char → Bool) (rep s : List Char)
    (hrep : ∀ c ∈ rep, t c = false) :
    ∀ c ∈ replaceClass t rep s, t c = false :=
  replaceClassF_elim t rep hrep s.length s (le_refl _)

theorem euroSafeB_replaceClass_ent (t : Char → Bool) (s : List Char)
    (hs : euroSafeB s = true) (rep : List Char)
    (hr : rep = amp39 ∨ rep = quotEnt) :
    euroSafeB (replaceClass t rep s) = true := by
  rcases hr with rfl | rfl
  · exact (euroSafeB_replaceClassF_block t '&' ['#', '3', '9', ';']
      ⟨by decide, by decide⟩ (by decide) s.length s hs).1
  · exact (euroSafeB_replaceClassF_block t '&' ['q', 'u', 'o', 't', ';']
      ⟨by decide, by decide⟩ (by decide) s.length s hs).1

theorem noQEB_replaceClass_ent (t : Char → Bool) (s : List Char)
    (hs : noQEB s = true) (rep : List Char)
    (hr : rep = amp39 ∨ rep = quotEnt) :
    noQEB (replaceClass t rep s) = true := by
  rcases hr with rfl | rfl
  · exact (noQEB_replaceClassF t '&' ['#', '3', '9', ';']
      (by decide) (by decide) (by decide) s.length s hs).1
  · exact (noQEB_replaceClassF t '&' ['q', 'u', 'o', 't', ';']
      (by decide) (by decide) (by decide) s.length s hs).1

/-- The output of the normalisation pipeline satisfies every condition that
makes a second run of each stage the identity. -/
theorem tailPipe_props (s3 : List Char) :
    euroSafeB (tailPipe s3) = true ∧ noQEB (tailPipe s3) = true ∧
    (∀ c ∈ tailPipe s3, quoteCls1 c = false) ∧
    (∀ c ∈ tailPipe s3, quoteCls2 c = false) ∧
    (∀ e ∈ unicode_map, e.1 ∉ tailPipe s3) := by
  unfold tailPipe
  set u4 := subEuroLA s3 with hu4
  set u5 := subQuoteEuro u4 with hu5
  set u6 := unicode_map.foldl (fun t p => pyReplace t [p.1] p.2) u5 with hu6
  set u7 := replaceClass quoteCls1 amp39 u6 with hu7
  have e4 : euroSafeB u4 = true := by
    rw [hu4]
    exact (subEuroLAF_establish s3.length s3 (le_refl _)).1
  have e5 : euroSafeB u5 = true := by
    rw [hu5]
    exact (subQuoteEuroF_keepSafe u4.length u4 e4).1
  have n5 : noQEB u5 = true := by
    rw [hu5]
    exact (subQuoteEuroF_establish u4.length u4 (le_refl _)).1
  have h6 := foldMap_keepInv unicode_map u5 unicode_map_entryOK e5 n5
  rw [← hu6] at h6
  have e7 : euroSafeB u7 = true := by
    rw [hu7]
    exact euroSafeB_replaceClass_ent quoteCls1 u6 h6.1 amp39 (Or.inl rfl)
  have n7 : noQEB u7 = true := by
    rw [hu7]
    exact noQEB_replaceClass_ent quoteCls1 u6 h6.2 amp39 (Or.inl rfl)
  have e8 : euroSafeB (replaceClass quoteCls2 quotEnt u7) = true :=
    euroSafeB_replaceClass_ent quoteCls2 u7 e7 quotEnt (Or.inr rfl)
  have n8 : noQEB (replaceClass quoteCls2 quotEnt u7) = true :=
    noQEB_replaceClass_ent quoteCls2 u7 n7 quotEnt (Or.inr rfl)
  have hq1 : ∀ c ∈ u7, quoteCls1 c = false := by
    rw [hu7]
    exact replaceClass_elim quoteCls1 amp39 u6 (by decide)
  have hcls1 : ∀ c ∈ replaceClass quoteCls2 quotEnt u7, quoteCls1 c = false := by
    intro c hc
    rcases mem_replaceClass quoteCls2 quotEnt u7 c hc with h | h
    · exact (by decide : ∀ x ∈ quotEnt, quoteCls1 x = false) c h
    · exact hq1 c h
  have hcls2 : ∀ c ∈ replaceClass quoteCls2 quotEnt u7, quoteCls2 c = false :=
    replaceClass_elim quoteCls2 quotEnt u7 (by decide)
  have hmapc : ∀ e ∈ unicode_map, e.1 ∉ replaceClass quoteCls2 quotEnt u7 := by
    intro e he hmem
    have hx : e.1 ∈ unicode_map.map Prod.fst := List.mem_map.mpr ⟨e, he, rfl⟩
    have h6m : e.1 ∉ u6 := by
      rw [hu6]
      exact fold_elim_char e.1 unicode_map u5 ⟨e, he, rfl⟩
        (fun q hq => (mapChars_facts e.1 hx).1 q hq)
    have h7m : e.1 ∉ u7 := by
      rw [hu7]
      intro hm
      rcases mem_replaceClass quoteCls1 amp39 u6 e.1 hm with h | h
      · exact (mapChars_facts e.1 hx).2.1 h
      · exact h6m h
    rcases mem_replaceClass quoteCls2 quotEnt u7 e.1 hmem with h | h
    · exact (mapChars_facts e.1 hx).2.2 h
    · exact h7m h
  exact ⟨e8, n8, hcls1, hcls2, hmapc⟩

/-- A text satisfying the stage-identity conditions is a fixed point of
`normalize_characters`. -/
theorem normalize_fixed (s : List Char)
    (he : euroSafeB s = true) (hn : noQEB s = true)
    (hcls1 : ∀ c ∈ s, quoteCls1 c = false)
    (hcls2 : ∀ c ∈ s, quoteCls2 c = false)
    (hmapc : ∀ e ∈ unicode_map, e.1 ∉ s)
    (hmoj : ∀ e ∈ mojibake_patterns, ∃ x, x ∈ e.1 ∧ x ∉ s)
    (ha : 'â' ∉ s) :
    normalize_characters s = s := by
  rw [normalize_eq]
  by_cases hnil : s = []
  · rw [if_pos hnil]
  · rw [if_neg hnil]
    unfold tailPipe
    rw [foldMoj_id mojibake_patterns s hmoj]
    rw [show subA80dot s = s from subA80dotF_id s.length s ha]
    rw [show subAdot s = s from subAdotF_id s.length s ha]
    rw [show subEuroLA s = s from subEuroLAF_id s.length s he]
    rw [show subQuoteEuro s = s from subQuoteEuroF_id s.length s hn]
    rw [foldMap_id unicode_map s hmapc]
    rw [show replaceClass quoteCls1 amp39 s = s from
      replaceClassF_id quoteCls1 amp39 s.length s hcls1]
    exact replaceClassF_id quoteCls2 quotEnt s.length s hcls2

/-- C7: `normalize_characters` is total by construction, idempotent, and the
identity on empty input. -/
theorem c7_normalize_idempotent :
    (∀ t : List Char,
      normalize_characters (normalize_characters t) = normalize_characters t) ∧
    normalize_characters [] = [] := by
  refine ⟨?_, normalize_nil⟩
  intro t
  rw [normalize_eq t]
  by_cases hnil : t = []
  · rw [if_pos hnil, hnil]
    rw [normalize_nil]
  · rw [if_neg hnil]
    set s3 := subAdot (subA80dot
      (mojibake_patterns.foldl (fun a p => pyReplace a p.1 p.2) t)) with hs3
    obtain ⟨he, hn, hc1, hc2, hmc⟩ := tailPipe_props s3
    have hna : 'â' ∉ tailPipe s3 := hmc ('â', amp39) (by decide)
    have hnb : '\u00a0' ∉ tailPipe s3 := hmc ('\u00a0', " ".data) (by decide)
    refine normalize_fixed (tailPipe s3) he hn hc1 hc2 hmc ?_ hna
    intro e hme
    simp only [mojibake_patterns, List.mem_cons, List.not_mem_nil, or_false] at hme
    rcases hme with rfl | rfl | rfl | rfl | rfl | rfl | rfl | rfl
    · exact ⟨'â', by decide, hna⟩
    · exact ⟨'â', by decide, hna⟩
    · exact ⟨'â', by decide, hna⟩
    · exact ⟨'â', by decide, hna⟩
    · exact ⟨'â', by decide, hna⟩
    · exact ⟨'â', by decide, hna⟩
    · exact ⟨'â', by decide, hna⟩
    · exact ⟨'\u00a0', by decide, hnb⟩

end SciDigest
